import Mathlib

/-!
Verification of the TKAutoRipper core against its specification.

The Python source is shallowly embedded: pure functions become Lean
functions over `List Char` / `String` / `ℚ` / `Int`; stateful code becomes
explicit state passing; machine floats are modelled by exact rationals;
fallible code returns `Option` / `Except`.  Python `round` (banker's
rounding) is modelled by `pyRound`, Python `int()` on a non-negative float
by `Int.floor`.
-/

namespace TKAR

/-- Python `round` on an exact rational: round half to even. -/
def pyRound (q : ℚ) : ℤ :=
  let f : ℤ := ⌊q⌋
  let r : ℚ := q - (f : ℚ)
  if r < 1/2 then f
  else if 1/2 < r then f + 1
  else if f % 2 = 0 then f else f + 1

/-! ## `sanitize_folder` (app/core/job/job.py lines 15-20)

`_safe = re.compile(r'[<>:"/\\|?*\x00-\x1F]+')`
`sanitize_folder`: `n = _safe.sub("", name or "").strip()` then
`n = re.sub(r"\s+", " ", n)`.
-/

/-- The characters removed by the `_safe` regex: `< > : " / \ | ? *` and
the control range U+0000..U+001F. -/
def isBadChar (c : Char) : Bool :=
  c == '<' || c == '>' || c == ':' || c == '"' || c == '/' || c == '\\' ||
  c == '|' || c == '?' || c == '*' || c.toNat < 32

/-- Python whitespace, as matched by both `str.strip()` and `re`'s `\s`
on `str` patterns (the two sets agree on every code point that can
survive the `_safe` substitution, which removes U+0000..U+001F). -/
def pyWs (c : Char) : Bool :=
  let n := c.toNat
  (9 ≤ n && n ≤ 13) || (28 ≤ n && n ≤ 32) || n == 133 || n == 160 ||
  n == 5760 || (8192 ≤ n && n ≤ 8202) || n == 8232 || n == 8233 ||
  n == 8239 || n == 8287 || n == 12288

/-- `_safe.sub("", s)`: removing every occurrence of a character class is
character filtering. -/
def removeBad (l : List Char) : List Char := l.filter (fun c => !isBadChar c)

/-- Python `str.strip()` on a character list. -/
def pyStripL (l : List Char) : List Char :=
  ((l.dropWhile (fun c => pyWs c)).reverse.dropWhile (fun c => pyWs c)).reverse

/-- `re.sub(r"\s+", " ", ·)`: replace every maximal whitespace run by one
space.  The boolean state records whether the previous character was
whitespace (i.e. we are inside a run that has already emitted its space). -/
def collapseWs : Bool → List Char → List Char
  | _, [] => []
  | prevWs, c :: rest =>
    if pyWs c then
      if prevWs then collapseWs true rest else ' ' :: collapseWs true rest
    else c :: collapseWs false rest

/-- `sanitize_folder` from app/core/job/job.py. -/
def sanitize_folder (s : String) : String :=
  ⟨collapseWs false (pyStripL (removeBad s.data))⟩

/-- No two adjacent whitespace characters. -/
def noAdjWs (l : List Char) : Prop :=
  List.Chain' (fun x y => ¬(pyWs x = true ∧ pyWs y = true)) l

lemma collapseWs_cons_not (a : Char) (l : List Char) (b : Bool) (ha : pyWs a = false) :
    collapseWs b (a :: l) = a :: collapseWs false l := by
  cases b <;> simp [collapseWs, ha]

lemma collapseWs_cons_ws_false (a : Char) (l : List Char) (ha : pyWs a = true) :
    collapseWs false (a :: l) = ' ' :: collapseWs true l := by
  simp [collapseWs, ha]

lemma collapseWs_cons_ws_true (a : Char) (l : List Char) (ha : pyWs a = true) :
    collapseWs true (a :: l) = collapseWs true l := by
  simp [collapseWs, ha]

lemma dropWhile_head_not (p : Char → Bool) :
    ∀ (l : List Char) (c : Char), (l.dropWhile p).head? = some c → p c = false := by
  intro l
  induction l with
  | nil => intro c h; simp [List.dropWhile] at h
  | cons a rest ih =>
    intro c h
    rw [List.dropWhile_cons] at h
    by_cases ha : p a = true
    · simp only [ha, if_true] at h
      exact ih c h
    · have ha' : p a = false := by simpa using ha
      simp only [ha', Bool.false_eq_true, if_false, List.head?_cons,
        Option.some.injEq] at h
      subst h
      exact ha'

lemma dropWhile_eq_self_of_head (p : Char → Bool) (l : List Char)
    (h : ∀ c, l.head? = some c → p c = false) : l.dropWhile p = l := by
  cases l with
  | nil => rfl
  | cons a rest =>
    rw [List.dropWhile_cons]
    have := h a rfl
    simp [this]

lemma dropWhile_getLast (p : Char → Bool) :
    ∀ (l : List Char), l.dropWhile p ≠ [] → (l.dropWhile p).getLast? = l.getLast? := by
  intro l
  induction l with
  | nil => intro h; simp [List.dropWhile] at h
  | cons a rest ih =>
    intro h
    rw [List.dropWhile_cons] at h ⊢
    by_cases ha : p a = true
    · simp only [ha, if_true] at h ⊢
      rw [ih h]
      have hr : rest ≠ [] := by
        rintro rfl
        simp [List.dropWhile] at h
      cases rest with
      | nil => exact absurd rfl hr
      | cons b bs => exact List.getLast?_cons_cons.symm
    · simp [ha]

lemma dropWhile_subset (p : Char → Bool) :
    ∀ (l : List Char) (c : Char), c ∈ l.dropWhile p → c ∈ l := by
  intro l
  induction l with
  | nil => intro c h; simp [List.dropWhile] at h
  | cons a rest ih =>
    intro c h
    rw [List.dropWhile_cons] at h
    by_cases ha : p a = true
    · simp only [ha, if_true] at h
      exact List.mem_cons_of_mem a (ih c h)
    · simpa only [ha, if_false] using h

lemma pyStripL_head (l : List Char) :
    ∀ c, (pyStripL l).head? = some c → pyWs c = false := by
  intro c hc
  unfold pyStripL at hc
  rw [List.head?_reverse] at hc
  have hne : (l.dropWhile (fun c => pyWs c)).reverse.dropWhile (fun c => pyWs c) ≠ [] := by
    intro hnil
    rw [hnil] at hc
    simp at hc
  rw [dropWhile_getLast _ _ hne, List.getLast?_reverse] at hc
  exact dropWhile_head_not _ _ c hc

lemma pyStripL_getLast (l : List Char) :
    ∀ c, (pyStripL l).getLast? = some c → pyWs c = false := by
  intro c hc
  unfold pyStripL at hc
  rw [List.getLast?_reverse] at hc
  exact dropWhile_head_not _ _ c hc

lemma pyStripL_subset (l : List Char) :
    ∀ c, c ∈ pyStripL l → c ∈ l := by
  intro c hc
  unfold pyStripL at hc
  rw [List.mem_reverse] at hc
  have := dropWhile_subset _ _ _ hc
  rw [List.mem_reverse] at this
  exact dropWhile_subset _ _ _ this

lemma pyStripL_eq_self (l : List Char)
    (hh : ∀ c, l.head? = some c → pyWs c = false)
    (hl : ∀ c, l.getLast? = some c → pyWs c = false) : pyStripL l = l := by
  unfold pyStripL
  rw [dropWhile_eq_self_of_head _ _ hh]
  rw [dropWhile_eq_self_of_head _ _ (fun c hc => hl c (by rwa [List.head?_reverse] at hc))]
  exact List.reverse_reverse l

lemma collapseWs_mem :
    ∀ (l : List Char) (b : Bool) (c : Char), c ∈ collapseWs b l →
      (c ∈ l ∧ pyWs c = false) ∨ c = ' ' := by
  intro l
  induction l with
  | nil => intro b c hc; simp [collapseWs] at hc
  | cons a rest ih =>
    intro b c hc
    cases ha : pyWs a with
    | false =>
      simp only [collapseWs, ha, Bool.false_eq_true, if_false, List.mem_cons] at hc
      rcases hc with rfl | hc
      · exact Or.inl ⟨List.mem_cons_self _ _, ha⟩
      · rcases ih false c hc with ⟨hm, hw⟩ | hsp
        · exact Or.inl ⟨List.mem_cons_of_mem _ hm, hw⟩
        · exact Or.inr hsp
    | true =>
      have step : c ∈ collapseWs true rest → (c ∈ a :: rest ∧ pyWs c = false) ∨ c = ' ' := by
        intro h
        rcases ih true c h with ⟨hm, hw⟩ | hsp
        · exact Or.inl ⟨List.mem_cons_of_mem _ hm, hw⟩
        · exact Or.inr hsp
      cases b with
      | true =>
        simp only [collapseWs, ha, if_true] at hc
        exact step hc
      | false =>
        simp only [collapseWs, ha, if_true, Bool.false_eq_true, if_false, List.mem_cons] at hc
        rcases hc with rfl | hc
        · exact Or.inr rfl
        · exact step hc

lemma collapseWs_head_true (l : List Char) :
    ∀ c, (collapseWs true l).head? = some c → pyWs c = false := by
  induction l with
  | nil => intro c hc; simp [collapseWs] at hc
  | cons a rest ih =>
    intro c hc
    cases ha : pyWs a with
    | true =>
      simp only [collapseWs, ha, if_true] at hc
      exact ih c hc
    | false =>
      simp only [collapseWs, ha, Bool.false_eq_true, if_false, List.head?_cons,
        Option.some.injEq] at hc
      subst hc
      exact ha

lemma collapseWs_chain' :
    ∀ (l : List Char) (b : Bool), noAdjWs (collapseWs b l) := by
  intro l
  induction l with
  | nil => intro b; simp [collapseWs, noAdjWs]
  | cons a rest ih =>
    intro b
    cases ha : pyWs a with
    | false =>
      simp only [collapseWs, ha, Bool.false_eq_true, if_false]
      rw [noAdjWs, List.chain'_cons']
      refine ⟨?_, ih false⟩
      intro y _ hcontra
      rw [ha] at hcontra
      exact absurd hcontra.1 (by simp)
    | true =>
      cases b with
      | true =>
        simp only [collapseWs, ha, if_true]
        exact ih true
      | false =>
        simp only [collapseWs, ha, if_true, Bool.false_eq_true, if_false]
        rw [noAdjWs, List.chain'_cons']
        refine ⟨?_, ih true⟩
        intro y hy hcontra
        exact absurd hcontra.2 (by simp [collapseWs_head_true rest y hy])

lemma collapseWs_ne_nil :
    ∀ (l : List Char) (b : Bool) (c : Char), c ∈ l → pyWs c = false →
      collapseWs b l ≠ [] := by
  intro l
  induction l with
  | nil => intro b c hc; simp at hc
  | cons a rest ih =>
    intro b c hc hws
    cases ha : pyWs a with
    | false => cases b <;> simp [collapseWs, ha]
    | true =>
      have hcr : c ∈ rest := by
        rcases List.mem_cons.mp hc with rfl | h
        · rw [ha] at hws; exact absurd hws (by simp)
        · exact h
      cases b with
      | true =>
        simp only [collapseWs, ha, if_true]
        exact ih true c hcr hws
      | false => simp [collapseWs, ha]

lemma collapseWs_getLast :
    ∀ (l : List Char) (b : Bool),
      (∀ c, l.getLast? = some c → pyWs c = false) →
      ∀ c, (collapseWs b l).getLast? = some c → pyWs c = false := by
  intro l
  induction l with
  | nil => intro b _ c hc; simp [collapseWs] at hc
  | cons a rest ih =>
    intro b h c hc
    cases rest with
    | nil =>
      have ha : pyWs a = false := h a (by simp)
      simp only [collapseWs, ha, Bool.false_eq_true, if_false] at hc
      simp only [collapseWs, List.getLast?_singleton, Option.some.injEq] at hc
      subst hc
      exact ha
    | cons r rs =>
      have hlast : ∀ c, (r :: rs).getLast? = some c → pyWs c = false := by
        intro c' hc'
        refine h c' ?_
        rw [List.getLast?_cons_cons]
        exact hc'
      have hlast_mem : ∃ d ∈ r :: rs, pyWs d = false := by
        refine ⟨(r :: rs).getLast (by simp), List.getLast_mem _, ?_⟩
        exact hlast _ (List.getLast?_eq_getLast _ (by simp))
      obtain ⟨d, hdm, hdw⟩ := hlast_mem
      have hne : ∀ b', collapseWs b' (r :: rs) ≠ [] :=
        fun b' => collapseWs_ne_nil (r :: rs) b' d hdm hdw
      have tailLast : ∀ b', ∀ c, (collapseWs b' (r :: rs)).getLast? = some c →
          pyWs c = false := fun b' => ih b' hlast
      have consLast : ∀ (y : Char) (b' : Bool),
          (y :: collapseWs b' (r :: rs)).getLast? = some c → pyWs c = false := by
        intro y b' hcc
        cases hx : collapseWs b' (r :: rs) with
        | nil => exact absurd hx (hne b')
        | cons x xs =>
          rw [hx, List.getLast?_cons_cons] at hcc
          exact tailLast b' c (hx ▸ hcc)
      cases ha : pyWs a with
      | false =>
        rw [collapseWs_cons_not a _ b ha] at hc
        exact consLast a false hc
      | true =>
        cases b with
        | true =>
          rw [collapseWs_cons_ws_true a _ ha] at hc
          exact tailLast true c hc
        | false =>
          rw [collapseWs_cons_ws_false a _ ha] at hc
          exact consLast ' ' true hc

lemma collapseWs_eq_self :
    ∀ (l : List Char) (b : Bool),
      noAdjWs l → (∀ c ∈ l, pyWs c = true → c = ' ') →
      (b = true → ∀ c, l.head? = some c → pyWs c = false) →
      collapseWs b l = l := by
  intro l
  induction l with
  | nil => intro b _ _ _; cases b <;> rfl
  | cons a rest ih =>
    intro b hch hsp hb
    have hch' := List.chain'_cons'.mp hch
    cases ha : pyWs a with
    | false =>
      simp only [collapseWs, ha, Bool.false_eq_true, if_false, List.cons.injEq,
        true_and]
      exact ih false hch'.2 (fun c hc => hsp c (List.mem_cons_of_mem _ hc))
        (fun contra => absurd contra (by simp))
    | true =>
      cases b with
      | true =>
        have := hb rfl a rfl
        rw [ha] at this
        exact absurd this (by simp)
      | false =>
        have ha' : a = ' ' := hsp a (List.mem_cons_self _ _) ha
        simp only [collapseWs, ha, if_true, Bool.false_eq_true, if_false,
          List.cons.injEq]
        refine ⟨ha'.symm, ?_⟩
        refine ih true hch'.2 (fun c hc => hsp c (List.mem_cons_of_mem _ hc)) ?_
        intro _ c hc
        by_contra hcw
        have hcw' : pyWs c = true := by
          cases hcc : pyWs c
          · exact absurd hcc hcw
          · rfl
        exact hch'.1 c hc ⟨ha, hcw'⟩

lemma sanitize_data (s : String) :
    (sanitize_folder s).data = collapseWs false (pyStripL (removeBad s.data)) := rfl

lemma sanitize_core (s : String) :
    (∀ c ∈ (sanitize_folder s).data, isBadChar c = false) ∧
    (∀ c ∈ (sanitize_folder s).data, pyWs c = true → c = ' ') ∧
    noAdjWs (sanitize_folder s).data ∧
    (∀ c, (sanitize_folder s).data.head? = some c → pyWs c = false) ∧
    (∀ c, (sanitize_folder s).data.getLast? = some c → pyWs c = false) := by
  rw [sanitize_data]
  refine ⟨?_, ?_, collapseWs_chain' _ _, ?_, ?_⟩
  · intro c hc
    rcases collapseWs_mem _ _ _ hc with ⟨hm, _⟩ | rfl
    · have := pyStripL_subset _ _ hm
      have hmem := List.of_mem_filter this
      simpa using hmem
    · decide
  · intro c hc hw
    rcases collapseWs_mem _ _ _ hc with ⟨_, hw'⟩ | rfl
    · rw [hw] at hw'; exact absurd hw' (by simp)
    · rfl
  · intro c hc
    cases hm : pyStripL (removeBad s.data) with
    | nil => rw [hm] at hc; simp [collapseWs] at hc
    | cons x xs =>
      have hx : pyWs x = false := pyStripL_head _ x (by rw [hm]; rfl)
      rw [hm] at hc
      simp only [collapseWs, hx, Bool.false_eq_true, if_false, List.head?_cons,
        Option.some.injEq] at hc
      subst hc
      exact hx
  · exact collapseWs_getLast _ _ (pyStripL_getLast _)

/-- Claim C9: `sanitize_folder` is idempotent; its output contains none of
`< > : " / \ | ? *` nor any control character U+0000..U+001F (`isBadChar`),
every whitespace character in the output is a single plain space, no two
adjacent output characters are both whitespace (runs are collapsed), and
the output has no leading or trailing whitespace. -/
theorem C9_sanitize_folder_idempotent_clean : ∀ s : String,
    sanitize_folder (sanitize_folder s) = sanitize_folder s ∧
    (∀ c ∈ (sanitize_folder s).data, isBadChar c = false) ∧
    (∀ c ∈ (sanitize_folder s).data, pyWs c = true → c = ' ') ∧
    noAdjWs (sanitize_folder s).data ∧
    (∀ c, (sanitize_folder s).data.head? = some c → pyWs c = false) ∧
    (∀ c, (sanitize_folder s).data.getLast? = some c → pyWs c = false) := by
  intro s
  obtain ⟨hbad, hsp, hch, hhd, hlast⟩ := sanitize_core s
  refine ⟨?_, hbad, hsp, hch, hhd, hlast⟩
  have h1 : removeBad (sanitize_folder s).data = (sanitize_folder s).data := by
    unfold removeBad
    rw [List.filter_eq_self]
    intro a ha
    simp [hbad a ha]
  have h2 : pyStripL (sanitize_folder s).data = (sanitize_folder s).data :=
    pyStripL_eq_self _ hhd hlast
  have h3 : collapseWs false (sanitize_folder s).data = (sanitize_folder s).data :=
    collapseWs_eq_self _ false hch hsp (fun contra => absurd contra (by simp))
  have key : ∀ l : List Char, removeBad l = l → pyStripL l = l →
      collapseWs false l = l → sanitize_folder ⟨l⟩ = ⟨l⟩ := by
    intro l k1 k2 k3
    show (⟨collapseWs false (pyStripL (removeBad l))⟩ : String) = ⟨l⟩
    rw [k1, k2, k3]
  exact key (sanitize_folder s).data h1 h2 h3

/-- Witness for C9 at the concrete input `" My:Disc  x "`. -/
theorem C9_witness :
    sanitize_folder (sanitize_folder (" My:Disc  x ")) = sanitize_folder (" My:Disc  x ") ∧
    isBadChar 'M' = false :=
  ⟨(C9_sanitize_folder_idempotent_clean (" My:Disc  x ")).1,
   (C9_sanitize_folder_idempotent_clean (" My:Disc  x ")).2.1 'M' (by decide)⟩

/-! ## MakeMKV PRGV parsing (app/core/job/runner.py lines 102-127)

`_PRGV_RE = re.compile(r"PRGV:(\d+),(\d+),(\d+)")`; `_read_last_prgv`
reverse-scans the lines of `makemkv_progress.txt` for the most recent
match and converts the first two groups to percentages of the third
(`max_v = float(m.group(3)) or 65536.0`).  The file content is modelled
as its list of lines (the `splitlines()` image); floats are modelled by
exact rationals.
-/

/-- Decimal digit run to a number (regex groups are `\d+`). -/
def digitsToNat (l : List Char) : Nat :=
  l.foldl (fun n c => 10 * n + (c.toNat - 48)) 0

/-- Match `PRGV:(\d+),(\d+),(\d+)` anchored at the start of `l`.  Because
each `(\d+)` is followed by `,` or the end of the groups, regex
backtracking is equivalent to maximal munch. -/
def prgvMatchHere (l : List Char) : Option (Nat × Nat × Nat) :=
  match l with
  | 'P' :: 'R' :: 'G' :: 'V' :: ':' :: rest =>
    let d1 := rest.takeWhile Char.isDigit
    let r1 := rest.dropWhile Char.isDigit
    if d1.isEmpty then none else
    match r1 with
    | ',' :: rest2 =>
      let d2 := rest2.takeWhile Char.isDigit
      let r2 := rest2.dropWhile Char.isDigit
      if d2.isEmpty then none else
      match r2 with
      | ',' :: rest3 =>
        let d3 := rest3.takeWhile Char.isDigit
        if d3.isEmpty then none
        else some (digitsToNat d1, digitsToNat d2, digitsToNat d3)
      | _ => none
    | _ => none
  | _ => none

/-- `_PRGV_RE.search(line)`: leftmost match in the line. -/
def prgvSearch : List Char → Option (Nat × Nat × Nat)
  | [] => none
  | c :: rest =>
    match prgvMatchHere (c :: rest) with
    | some m => some m
    | none => prgvSearch rest

/-- `max_v = float(m.group(3)) or 65536.0` — a zero max is replaced (the
float `0.0` is falsy exactly when the `\d+` group is the number 0). -/
def prgvEffMax (m : Nat) : ℚ :=
  if m = 0 then 65536 else (m : ℚ)

/-- The nested `pct` helper: clamp `v` into `[0, max_v]` and scale. -/
def prgvPct (v : ℚ) (maxv : ℚ) : ℚ :=
  (max 0 (min v maxv)) / maxv * 100

/-- `_read_last_prgv`: reverse-scan, returning `(title_pct, step_pct)`. -/
def read_last_prgv (lines : List String) : Option ℚ × Option ℚ :=
  go lines.reverse
where
  go : List String → Option ℚ × Option ℚ
  | [] => (none, none)
  | line :: rest =>
    match prgvSearch line.data with
    | some (t, s, m) =>
      (some (prgvPct (t : ℚ) (prgvEffMax m)), some (prgvPct (s : ℚ) (prgvEffMax m)))
    | none => go rest

lemma prgvEffMax_pos (m : Nat) : 0 < prgvEffMax m := by
  unfold prgvEffMax
  split
  · norm_num
  · rename_i h
    exact_mod_cast Nat.pos_of_ne_zero h

lemma prgvPct_bounds (v : ℚ) (m : Nat) :
    0 ≤ prgvPct v (prgvEffMax m) ∧ prgvPct v (prgvEffMax m) ≤ 100 := by
  have hM := prgvEffMax_pos m
  unfold prgvPct
  constructor
  · have h0 : (0 : ℚ) ≤ max 0 (min v (prgvEffMax m)) := le_max_left 0 _
    positivity
  · have hle : max 0 (min v (prgvEffMax m)) ≤ prgvEffMax m := by
      apply max_le
      · exact le_of_lt hM
      · exact min_le_right v _
    have : max 0 (min v (prgvEffMax m)) / prgvEffMax m ≤ 1 :=
      (div_le_one hM).mpr hle
    calc max 0 (min v (prgvEffMax m)) / prgvEffMax m * 100 ≤ 1 * 100 := by
          apply mul_le_mul_of_nonneg_right this; norm_num
      _ = 100 := by norm_num

lemma read_last_prgv_go_bounds (ls : List String) :
    (∀ q, (read_last_prgv.go ls).1 = some q → 0 ≤ q ∧ q ≤ 100) ∧
    (∀ q, (read_last_prgv.go ls).2 = some q → 0 ≤ q ∧ q ≤ 100) := by
  induction ls with
  | nil => constructor <;> intro q h <;> simp [read_last_prgv.go] at h
  | cons line rest ih =>
    unfold read_last_prgv.go
    cases hm : prgvSearch line.data with
    | none => simpa [hm] using ih
    | some m =>
      obtain ⟨t, s, mx⟩ := m
      constructor <;> intro q h <;> simp [hm] at h <;> rw [← h]
      · exact prgvPct_bounds _ _
      · exact prgvPct_bounds _ _

/-- Claim C10: parsing the PRGV progress file never divides by zero (a
zero max field is replaced by 65536, and the effective max is always
positive); every returned title/step percentage lies in `[0, 100]`; and a
raw value at or above the max saturates at exactly 100. -/
theorem C10_prgv_safe :
    (prgvEffMax 0 = 65536 ∧ ∀ m : Nat, 0 < prgvEffMax m) ∧
    (∀ (lines : List String) (q : ℚ),
      ((read_last_prgv lines).1 = some q → 0 ≤ q ∧ q ≤ 100) ∧
      ((read_last_prgv lines).2 = some q → 0 ≤ q ∧ q ≤ 100)) ∧
    (∀ (v : ℚ) (m : Nat), prgvEffMax m ≤ v →
      prgvPct v (prgvEffMax m) = 100) := by
  refine ⟨⟨by norm_num [prgvEffMax], prgvEffMax_pos⟩, ?_, ?_⟩
  · intro lines q
    have h := read_last_prgv_go_bounds lines.reverse
    exact ⟨h.1 q, h.2 q⟩
  · intro v m hv
    have hM := prgvEffMax_pos m
    unfold prgvPct
    rw [min_eq_right hv, max_eq_right (le_of_lt hM), div_self (ne_of_gt hM)]
    norm_num

/-- Witness for C10: a concrete progress file whose last PRGV line is
`PRGV:5,10,20`, and a saturating raw value. -/
theorem C10_witness :
    (0 ≤ prgvPct 5 (prgvEffMax 20) ∧ prgvPct 5 (prgvEffMax 20) ≤ 100) ∧
    prgvPct 70000 (prgvEffMax 65536) = 100 :=
  ⟨(C10_prgv_safe.2.1 [("garbage"), ("PRGV:5,10,20")]
      (prgvPct 5 (prgvEffMax 20))).1 rfl,
   C10_prgv_safe.2.2 70000 65536 (by norm_num [prgvEffMax])⟩

/-! ## Disc classification (app/core/discdetection/windows.py lines 125-154)

`_classify_disc(fs_type, disc_size, mount_point)`; the two `has_folder`
filesystem probes (`VIDEO_TS`, `BDMV`) are abstracted into boolean
parameters. -/

def one_gib : Nat := 1 * 1024 ^ 3

def twentyfive_gib : Nat := 25 * 1024 ^ 3

/-- `_classify_disc` from the Windows disc detector. -/
def classify_disc (fs_type : String) (disc_size : Nat)
    (hasVideoTs hasBdmv : Bool) : String :=
  if fs_type = "udf" ∨ fs_type = "iso9660" ∨ fs_type = "cdfs" then
    if disc_size < one_gib then "cd_rom"
    else if one_gib ≤ disc_size ∧ disc_size ≤ twentyfive_gib then
      (if hasVideoTs then "dvd_video" else "dvd_rom")
    else if twentyfive_gib < disc_size then
      (if hasBdmv then "bluray_video" else "bluray_rom")
    else "unknown"
  else if fs_type = "" then "cd_audio"
  else "unknown"

/-- Counterexample for C7: at exactly 25 GiB with an ISO-style filesystem
and no resolving directory the classifier returns `dvd_rom`, not a
Blu-ray kind (the code uses `size <= 25 GiB` for the DVD band and
`size > 25 GiB` for Blu-ray); and a present disc with an unrecognized
filesystem type (`ntfs`) is classified `unknown`. -/
theorem C7_counterexample :
    classify_disc ("udf") twentyfive_gib false false = "dvd_rom" ∧
    ¬("dvd_rom" = "bluray_video" ∨ "dvd_rom" = "bluray_rom") ∧
    classify_disc ("ntfs") twentyfive_gib false false = "unknown" := by
  refine ⟨?_, by decide, ?_⟩ <;> rfl

/-- Claim C7 (amended): for an ISO-style filesystem (`udf`, `iso9660`,
`cdfs`) with the directory probes false, the size fallback is: strictly
more than 25 GiB gives a Blu-ray kind, between 1 GiB and 25 GiB inclusive
gives a DVD kind, and below 1 GiB (including 0) gives `cd_rom`; for these
recognized filesystems the classifier never returns `unknown`.  (A
nonempty unrecognized filesystem type yields `unknown` even when media is
present.) -/
theorem C7_classifier_size_fallback :
    ∀ (fs : String) (size : Nat) (v b : Bool),
      (fs = "udf" ∨ fs = "iso9660" ∨ fs = "cdfs") →
      ((twentyfive_gib < size →
        classify_disc fs size v b = (if b then "bluray_video" else "bluray_rom")) ∧
       (one_gib ≤ size → size ≤ twentyfive_gib →
        classify_disc fs size v b = (if v then "dvd_video" else "dvd_rom")) ∧
       (size < one_gib → classify_disc fs size v b = "cd_rom") ∧
       classify_disc fs size v b ≠ "unknown") := by
  intro fs size v b hfs
  have e1 : one_gib = 1073741824 := by norm_num [one_gib]
  have e25 : twentyfive_gib = 26843545600 := by norm_num [twentyfive_gib]
  unfold classify_disc
  rw [if_pos hfs]
  refine ⟨?_, ?_, ?_, ?_⟩
  · intro h25
    rw [if_neg (by omega), if_neg (by omega), if_pos h25]
  · intro hlo hhi
    rw [if_neg (by omega), if_pos ⟨hlo, hhi⟩]
  · intro hlt
    rw [if_pos hlt]
  · by_cases h1 : size < one_gib
    · rw [if_pos h1]; decide
    · by_cases h2 : one_gib ≤ size ∧ size ≤ twentyfive_gib
      · rw [if_neg h1, if_pos h2]
        cases v <;> simp
      · have h3 : twentyfive_gib < size := by omega
        rw [if_neg h1, if_neg h2, if_pos h3]
        cases b <;> simp

/-- Witness for C7 at a concrete 2 GiB `udf` disc with `VIDEO_TS`. -/
theorem C7_witness :
    classify_disc ("udf") (2 * 1024 ^ 3) true false = "dvd_video" := by
  have h := (C7_classifier_size_fallback ("udf") (2 * 1024 ^ 3) true false
    (Or.inl rfl)).2.1 (by norm_num [one_gib]) (by norm_num [twentyfive_gib])
  simpa using h

/-! ## `_unique_path` (app/core/rippers/other/linux.py lines 59-74)

```
if not p.exists(): return p
stem = p.name
suffixes = "".join(p.suffixes)
base = p.name[: len(p.name) - len(suffixes)] if suffixes else p.stem
n = 1
while True:
    candidate = p.with_name(f"...base ({n})...suffixes")
    if not candidate.exists(): return candidate
    n += 1
```

The filesystem is modelled as the list of existing full path strings.  A
path is a pathlib `parent`/`name` pair; `with_name` only replaces the
final component.  The unbounded `while` loop is modelled with fuel
`len(fs) + 1`, which a pigeonhole argument below shows is never
exhausted. -/

/-- Decimal digit string of `n` (Python `str(n)` inside the f-string),
little fuel-based helper first. -/
def natDecAux : Nat → Nat → List Char
  | 0, _ => []
  | fuel + 1, n =>
    if n = 0 then []
    else natDecAux fuel (n / 10) ++ [Char.ofNat (48 + n % 10)]

/-- Python `str(n)` for a natural number. -/
def decStr (n : Nat) : List Char :=
  if n = 0 then ['0'] else natDecAux (n + 1) n

lemma digitsToNat_append_singleton (xs : List Char) (c : Char) :
    digitsToNat (xs ++ [c]) = 10 * digitsToNat xs + (c.toNat - 48) := by
  unfold digitsToNat
  rw [List.foldl_append]
  rfl

lemma digitChar_toNat : ∀ d < 10, (Char.ofNat (48 + d)).toNat = 48 + d := by decide

lemma digitsToNat_natDecAux : ∀ (fuel n : Nat), n < fuel →
    digitsToNat (natDecAux fuel n) = n := by
  intro fuel
  induction fuel with
  | zero => intro n h; omega
  | succ f ih =>
    intro n h
    unfold natDecAux
    by_cases hn : n = 0
    · simp [hn, digitsToNat]
    · rw [if_neg hn, digitsToNat_append_singleton]
      have hlt : n / 10 < f := by
        have := Nat.div_lt_self (Nat.pos_of_ne_zero hn) (by norm_num : 1 < 10)
        omega
      rw [ih (n / 10) hlt, digitChar_toNat (n % 10) (Nat.mod_lt n (by norm_num))]
      omega

lemma digitsToNat_decStr (n : Nat) : digitsToNat (decStr n) = n := by
  unfold decStr
  by_cases hn : n = 0
  · simp [hn]; decide
  · rw [if_neg hn]
    exact digitsToNat_natDecAux (n + 1) n (Nat.lt_succ_self n)

lemma decStr_inj (m n : Nat) (h : decStr m = decStr n) : m = n := by
  have := congrArg digitsToNat h
  rwa [digitsToNat_decStr, digitsToNat_decStr] at this

/-- A filesystem path split, as pathlib does, into directory part and
final component. -/
structure PyPath where
  parent : String
  name : String
deriving DecidableEq

/-- `str(path)`: join the directory part and the name with `/`. -/
def PyPath.toStr (p : PyPath) : String :=
  ⟨p.parent.data ++ ('/' :: p.name.data)⟩

/-- `"".join(p.suffixes)` of a final component (pathlib: empty when the
name ends with a dot; otherwise the part of the dot-lstripped name from
its first dot). -/
def joinedSuffixes (name : List Char) : List Char :=
  if name.getLast? = some '.' then []
  else (name.dropWhile (fun c => c == '.')).dropWhile (fun c => !(c == '.'))

/-- pathlib `Path.stem`: the name minus `Path.suffix`, where the suffix
is `name[i:]` for `i = name.rfind('.')` only when `0 < i < len - 1`. -/
def pyStem (name : List Char) : List Char :=
  match name.reverse.findIdx? (fun c => c == '.') with
  | none => name
  | some j =>
    let i := name.length - 1 - j
    if 0 < i ∧ i < name.length - 1 then name.take i else name

/-- `base` as computed by `_unique_path` (line 68). -/
def uniqueBase (name : List Char) : List Char :=
  let sfx := joinedSuffixes name
  if sfx.isEmpty then pyStem name
  else name.take (name.length - sfx.length)

/-- The f-string `f"...base ({n})...suffixes"`. -/
def candName (p : PyPath) (n : Nat) : List Char :=
  uniqueBase p.name.data ++
    (' ' :: '(' :: (decStr n ++ (')' :: joinedSuffixes p.name.data)))

/-- `p.with_name(candidate)`. -/
def candPath (p : PyPath) (n : Nat) : PyPath :=
  ⟨p.parent, ⟨candName p n⟩⟩

lemma candName_inj (p : PyPath) (m n : Nat) (h : candName p m = candName p n) :
    m = n := by
  unfold candName at h
  have h1 := List.append_cancel_left h
  simp only [List.cons.injEq, true_and] at h1
  exact decStr_inj m n (List.append_cancel_right h1)

lemma candPath_toStr_inj (p : PyPath) (m n : Nat)
    (h : (candPath p m).toStr = (candPath p n).toStr) : m = n := by
  have hdata : p.parent.data ++ ('/' :: candName p m) =
      p.parent.data ++ ('/' :: candName p n) := congrArg String.data h
  have h1 := List.append_cancel_left hdata
  simp only [List.cons.injEq, true_and] at h1
  exact candName_inj p m n h1

/-- Pigeonhole: among the first `len(fs) + 1` candidates one is fresh. -/
lemma exists_fresh_cand (fs : List String) (p : PyPath) :
    ∃ k < fs.length + 1, (candPath p (1 + k)).toStr ∉ fs := by
  by_contra hall
  push_neg at hall
  have hinj : Function.Injective (fun k : Nat => (candPath p (1 + k)).toStr) := by
    intro a b hab
    have := candPath_toStr_inj p (1 + a) (1 + b) hab
    omega
  have himg : (Finset.range (fs.length + 1)).image
      (fun k => (candPath p (1 + k)).toStr) ⊆ fs.toFinset := by
    intro x hx
    rw [Finset.mem_image] at hx
    obtain ⟨k, hk, rfl⟩ := hx
    rw [List.mem_toFinset]
    exact hall k (Finset.mem_range.mp hk)
  have hcard := Finset.card_le_card himg
  rw [Finset.card_image_of_injective _ hinj, Finset.card_range] at hcard
  have := fs.toFinset_card_le
  omega

/-- The `while True` loop of `_unique_path`, with explicit fuel. -/
def uniqueLoop (fs : List String) (p : PyPath) : Nat → Nat → Nat
  | 0, n => n
  | fuel + 1, n =>
    if (candPath p n).toStr ∈ fs then uniqueLoop fs p fuel (n + 1) else n

lemma uniqueLoop_spec (fs : List String) (p : PyPath) :
    ∀ (fuel start : Nat),
      (∃ k < fuel, (candPath p (start + k)).toStr ∉ fs) →
      ((candPath p (uniqueLoop fs p fuel start)).toStr ∉ fs ∧
       start ≤ uniqueLoop fs p fuel start ∧
       ∀ m, start ≤ m → m < uniqueLoop fs p fuel start →
         (candPath p m).toStr ∈ fs) := by
  intro fuel
  induction fuel with
  | zero => intro start h; obtain ⟨k, hk, _⟩ := h; omega
  | succ f ih =>
    intro start h
    unfold uniqueLoop
    by_cases hmem : (candPath p start).toStr ∈ fs
    · rw [if_pos hmem]
      have hshift : ∃ k < f, (candPath p (start + 1 + k)).toStr ∉ fs := by
        obtain ⟨k, hk, hfr⟩ := h
        cases k with
        | zero => simp only [Nat.add_zero] at hfr; exact absurd hmem hfr
        | succ k' =>
          exact ⟨k', by omega, by
            have : start + 1 + k' = start + (k' + 1) := by omega
            rwa [this]⟩
      obtain ⟨hfr, hle, hmin⟩ := ih (start + 1) hshift
      refine ⟨hfr, by omega, ?_⟩
      intro m hm1 hm2
      by_cases hms : m = start
      · rwa [hms]
      · exact hmin m (by omega) hm2
    · rw [if_neg hmem]
      exact ⟨hmem, le_refl _, fun m h1 h2 => absurd h2 (by omega)⟩

/-- `_unique_path` from the ROM ripper. -/
def unique_path (fs : List String) (p : PyPath) : PyPath :=
  if p.toStr ∈ fs then candPath p (uniqueLoop fs p (fs.length + 1) 1)
  else p

lemma unique_path_exists_input (fs : List String) (p : PyPath) :
    ∃ k < fs.length + 1, (candPath p (1 + k)).toStr ∉ fs := exists_fresh_cand fs p

lemma base_append_suffixes (nm : List Char) :
    nm.take (nm.length - (joinedSuffixes nm).length) ++ joinedSuffixes nm = nm := by
  have hsfx : joinedSuffixes nm <:+ nm := by
    unfold joinedSuffixes
    split
    · exact List.nil_suffix
    · exact (List.dropWhile_suffix _).trans (List.dropWhile_suffix _)
  obtain ⟨pre, hpre⟩ := hsfx
  generalize joinedSuffixes nm = s at hpre ⊢
  rw [← hpre, show (pre ++ s).length - s.length = pre.length from by
    rw [List.length_append]; omega, List.take_left]

/-- Claim C8 (amended): `unique_path fs p` never exists on the modelled
filesystem; it is a fixed point when `p` does not exist; and when `p`
exists it returns `p.with_name(base + " (n)" + suffixes)` for the
smallest positive `n` making the candidate fresh (in particular the
result differs from `p`).  Whenever the suffix chain is nonempty, or
pathlib's `stem` equals the whole name, `base ++ suffixes` is exactly the
original name — i.e. the result is a pure ` (n)` insertion before the
full suffix chain; for degenerate names (two or more leading dots
followed by a dot-free remainder) pathlib's `stem` drops the remainder
and the insertion reading fails (see the counterexample). -/
theorem C8_unique_path_fresh_least :
    ∀ (fs : List String) (p : PyPath),
      (unique_path fs p).toStr ∉ fs ∧
      (p.toStr ∉ fs → unique_path fs p = p) ∧
      (p.toStr ∈ fs →
        unique_path fs p ≠ p ∧
        ∃ n : Nat, 0 < n ∧ unique_path fs p = candPath p n ∧
          ∀ m, 0 < m → m < n → (candPath p m).toStr ∈ fs) ∧
      ((joinedSuffixes p.name.data ≠ [] ∨ pyStem p.name.data = p.name.data) →
        uniqueBase p.name.data ++ joinedSuffixes p.name.data = p.name.data) := by
  intro fs p
  have hspec := uniqueLoop_spec fs p (fs.length + 1) 1
    (by
      obtain ⟨k, hk, hfr⟩ := unique_path_exists_input fs p
      exact ⟨k, hk, hfr⟩)
  obtain ⟨hfr, hge, hmin⟩ := hspec
  refine ⟨?_, ?_, ?_, ?_⟩
  · unfold unique_path
    by_cases hmem : p.toStr ∈ fs
    · rw [if_pos hmem]; exact hfr
    · rw [if_neg hmem]; exact hmem
  · intro hmem
    unfold unique_path
    rw [if_neg hmem]
  · intro hmem
    constructor
    · intro heq
      have : (unique_path fs p).toStr ∉ fs := by
        unfold unique_path
        rw [if_pos hmem]
        exact hfr
      rw [heq] at this
      exact this hmem
    · refine ⟨uniqueLoop fs p (fs.length + 1) 1, by omega, ?_, ?_⟩
      · unfold unique_path
        rw [if_pos hmem]
      · intro m hm0 hmn
        exact hmin m (by omega) hmn
  · intro hcase
    by_cases hempty : joinedSuffixes p.name.data = []
    · rcases hcase with hne | hstem
      · exact absurd hempty hne
      · unfold uniqueBase
        rw [if_pos (by simpa [List.isEmpty_iff] using hempty), hstem, hempty,
          List.append_nil]
    · unfold uniqueBase
      rw [if_neg (by simpa [List.isEmpty_iff] using hempty)]
      exact base_append_suffixes _

/-- Counterexample for C8 as stated: for the existing path `/t/..abc`
(2 leading dots, empty suffix chain) pathlib's `stem` is `"."`, so the
returned name is `". (1)"`, which is not the original name with ` (1)`
inserted anywhere (any such insertion has 9 characters, the result has
5). -/
theorem C8_counterexample :
    unique_path [("/t/..abc")] ⟨("/t"), ("..abc")⟩ = ⟨("/t"), (". (1)")⟩ ∧
    (∀ l₁ l₂ : List Char, l₁ ++ l₂ = ("..abc").data →
      (". (1)").data ≠ l₁ ++ (" (1)").data ++ l₂) := by
  constructor
  · decide
  · intro l₁ l₂ hsplit heq
    have h1 := congrArg List.length hsplit
    have h2 := congrArg List.length heq
    simp only [List.length_append] at h1 h2
    have e1 : ("..abc").data.length = 5 := by decide
    have e2 : (". (1)").data.length = 5 := by decide
    have e3 : (" (1)").data.length = 4 := by decide
    rw [e1] at h1
    rw [e2, e3] at h2
    omega

/-- Witness for C8 at the concrete collision `/out/MyDisc.iso.zst`. -/
theorem C8_witness :
    (unique_path [("/out/MyDisc.iso.zst")]
      ⟨("/out"), ("MyDisc.iso.zst")⟩).toStr ∉ [("/out/MyDisc.iso.zst")] ∧
    unique_path [("/out/MyDisc.iso.zst")] ⟨("/out"), ("MyDisc.iso.zst")⟩ ≠
      ⟨("/out"), ("MyDisc.iso.zst")⟩ :=
  ⟨(C8_unique_path_fresh_least [("/out/MyDisc.iso.zst")]
      ⟨("/out"), ("MyDisc.iso.zst")⟩).1,
   ((C8_unique_path_fresh_least [("/out/MyDisc.iso.zst")]
      ⟨("/out"), ("MyDisc.iso.zst")⟩).2.2.1 (by decide)).1⟩

/-! ## String-path helpers (Python pathlib on full path strings)

`Path(s).name` / `.parent` / `.suffix` for the slash-separated strings the
API handlers and rippers manipulate. -/

/-- `Path(s).name`: the part after the last `/` (the whole string when
there is none). -/
def strName (s : String) : String :=
  ⟨(s.data.reverse.takeWhile (fun c => !(c == '/'))).reverse⟩

/-- `Path(s).parent` rendered as a string: the part before the last `/`
(`"."` when there is none, `"/"` for a root child). -/
def strParent (s : String) : String :=
  match s.data.reverse.findIdx? (fun c => c == '/') with
  | none => (".")
  | some j =>
    let i := s.data.length - 1 - j
    if i = 0 then ("/") else ⟨s.data.take i⟩

/-- pathlib `Path.suffix` of a final component: `name[i:]` for
`i = name.rfind('.')` when `0 < i < len - 1`, else empty. -/
def pySuffix (name : List Char) : List Char :=
  match name.reverse.findIdx? (fun c => c == '.') with
  | none => []
  | some j =>
    let i := name.length - 1 - j
    if 0 < i ∧ i < name.length - 1 then name.drop i else []

/-- `Path(s).suffix` on a full path string. -/
def strSuffix (s : String) : String := ⟨pySuffix (strName s).data⟩

/-! ## The `Job` record (app/core/job/job.py lines 33-67)

Fields not reachable by the modelled operations (timestamps, the bounded
stdout ring, the runner back-pointer, OMDb payload except the ROM keys,
rename-flow flags) are omitted; `metadata` keeps exactly the keys the ROM
planner reads and writes. -/

/-- The `job.metadata` keys used by `rip_generic_disc`. -/
structure RomMeta where
  rom_temp_iso : Option String := none
  rom_source_drive : Option String := none
  rom_final_iso : Option String := none
  rom_use_comp : Option Bool := none
  rom_comp_alg : Option String := none
deriving DecidableEq

/-- The `Job` dataclass (defaults as in the source). -/
structure Job where
  job_id : String
  disc_type : String
  drive : Option String
  disc_label : String
  temp_path : String
  output_path : String
  steps_total : Nat := 1
  step : Nat := 1
  step_description : String := "Initializing"
  step_progress : Int := 0
  title_progress : Int := 0
  status : String := "Queued"
  progress : Int := 0
  output_locked : Bool := false
  override_filename : Option String := none
  metadata : RomMeta := {}
deriving DecidableEq

/-- Python truthiness of an optional string (`None` and `""` are falsy). -/
def optTruthy : Option String → Bool
  | none => false
  | some s => !(s == "")

/-- `str.lower()` on the ASCII strings the handlers compare (config keys,
disc-type names, extensions). -/
def strLower (s : String) : String :=
  ⟨s.data.map (fun c =>
    if 65 ≤ c.toNat ∧ c.toNat ≤ 90 then Char.ofNat (c.toNat + 32) else c)⟩

/-- `s.endswith(t)`. -/
def strEndsWith (s t : String) : Bool := t.data.isSuffixOf s.data

/-- `s.startswith(t)`. -/
def strStartsWith (s t : String) : Bool := t.data.isPrefixOf s.data

/-- `a or b` on optional strings with Python falsiness. -/
def pyOrOpt (a b : Option String) : Option String :=
  if optTruthy a then a else b

/-! ## `set_output` (app/api/jobs.py lines 135-200)

`PUT /api/jobs/{job_id}/output`.  The single looked-up job is passed
directly (the 404 branch for an unknown id is outside this model);
`expanduser` is modelled as the identity (no `~` in modelled paths);
`mkdir` side effects are outside the model.  The state is threaded: an
HTTPException aborts the handler before any mutation, so an error result
carries the unchanged job. -/

inductive HttpErr
  | e409
  | e400
deriving DecidableEq

structure OtherCfg where
  usecompression : Bool := true
  compression : String := ("zstd")
deriving DecidableEq

/-- The extension whitelist built from config OTHER (lines 164-171). -/
def allowedExts (cfg : OtherCfg) : List String :=
  [(".iso")] ++
    (if cfg.usecompression then
      (if strLower cfg.compression = "zstd" then [(".zst"), (".iso.zst")]
       else if strLower cfg.compression = "bz2" ∨ strLower cfg.compression = "bzip2"
       then [(".bz2"), (".iso.bz2")]
       else [])
     else [])

/-- `valid = p.suffix.lower() in allowed or any(full_name.endswith(x) for x
in allowed if x.startswith(".iso."))` (lines 173-177). -/
def romExtValid (cfg : OtherCfg) (p : String) : Bool :=
  let allowed := allowedExts cfg
  let full_name := strLower (strName p)
  allowed.contains (strLower (strSuffix p)) ||
    allowed.any (fun x => strStartsWith x (".iso.") && strEndsWith full_name x)

/-- `set_output` from app/api/jobs.py. -/
def set_output (cfg : OtherCfg) (j : Job) (payload : Option String) :
    Job × Except HttpErr (String × Option String) :=
  if j.output_locked then (j, .error .e409)
  else
    let raw : String := ⟨pyStripL (payload.getD (String.mk [])).data⟩
    if raw = "" then (j, .error .e400)
    else
      let p := raw
      let dtype := strLower j.disc_type
      if dtype = "dvd_video" ∨ dtype = "bluray_video" ∨ dtype = "cd_audio" then
        if strSuffix p ≠ "" then (j, .error .e400)
        else ({ j with output_path := p, override_filename := none },
              .ok (p, none))
      else if dtype = "cd_rom" ∨ dtype = "dvd_rom" ∨ dtype = "bluray_rom" ∨
          dtype = "other_disc" then
        if strSuffix p = "" then (j, .error .e400)
        else if !romExtValid cfg p then (j, .error .e400)
        else ({ j with output_path := strParent p,
                       override_filename := some (strName p) },
              .ok (strParent p, some (strName p)))
      else
        if strSuffix p ≠ "" then (j, .error .e400)
        else ({ j with output_path := p, override_filename := none },
              .ok (p, none))

/-- Claim C5: when `output_locked` is true, `set_output` fails with the
precondition error (HTTP 409) and leaves the job — in particular
`output_path` and `override_filename` — unchanged; when the job is not
locked, `set_output` never fails with that error. -/
theorem C5_set_output_lock :
    ∀ (cfg : OtherCfg) (j : Job) (payload : Option String),
      (j.output_locked = true → set_output cfg j payload = (j, .error .e409)) ∧
      (j.output_locked = false →
        (set_output cfg j payload).2 ≠ Except.error HttpErr.e409) := by
  intro cfg j payload
  constructor
  · intro hlock
    unfold set_output
    rw [if_pos hlock]
  · intro hlock
    unfold set_output
    rw [if_neg (by simp [hlock])]
    simp only
    split
    · simp
    · split
      · split
        · simp
        · simp
      · split
        · split
          · simp
          · split
            · simp
            · simp
        · split
          · simp
          · simp

/-- A concrete ROM job with the output already locked. -/
def lockedRomJob : Job where
  job_id := ("j1")
  disc_type := ("other_disc")
  drive := some ("/dev/sr0")
  disc_label := ("D")
  temp_path := ("/tmp/j1")
  output_path := ("/out")
  output_locked := true

/-- The same concrete ROM job, not locked. -/
def unlockedRomJob : Job where
  job_id := ("j1")
  disc_type := ("other_disc")
  drive := some ("/dev/sr0")
  disc_label := ("D")
  temp_path := ("/tmp/j1")
  output_path := ("/out")

/-- Witness for C5: a locked and an unlocked concrete ROM job. -/
theorem C5_witness :
    set_output {} lockedRomJob (some ("/x/y.iso")) =
      (lockedRomJob, .error .e409) ∧
    (set_output {} unlockedRomJob (some ("/x/y.iso"))).2 ≠
      Except.error HttpErr.e409 :=
  ⟨(C5_set_output_lock {} lockedRomJob (some ("/x/y.iso"))).1 rfl,
   (C5_set_output_lock {} unlockedRomJob (some ("/x/y.iso"))).2 rfl⟩

/-! ## ROM/other-disc pipeline planner
(app/core/rippers/other/linux.py `rip_generic_disc`, lines 77-202, with
the command builders from app/core/integration/dd/linux.py and
app/core/integration/zstd/linux.py). -/

/-- The single-quote character (written by code point to keep literals
simple). -/
def squote : Char := Char.ofNat 39

/-- The double-quote character. -/
def dquote : Char := Char.ofNat 34

/-- Characters `shlex.quote` leaves unquoted. -/
def shSafeChar (c : Char) : Bool :=
  c.isAlpha || c.isDigit || c == '@' || c == '%' || c == '+' || c == '=' ||
  c == ':' || c == ',' || c == '.' || c == '/' || c == '-' || c == '_'

/-- `shlex.quote`: wrap in single quotes, escaping embedded single quotes
as the five-character sequence quote-dquote-quote-dquote-quote. -/
def shQuote (s : String) : String :=
  if s = "" then ⟨[squote, squote]⟩
  else if s.data.all shSafeChar then s
  else ⟨squote :: (s.data.foldr (fun c acc =>
    if c = squote then squote :: dquote :: squote :: dquote :: squote :: acc
    else c :: acc) [squote])⟩

/-- `build_iso_dump_cmd` (dd via bash, progress on stdout). -/
def build_iso_dump_cmd (device : String) (output_path : String) : List String :=
  [("bash"), ("-lc"),
   ("dd if=") ++ shQuote device ++ (" of=") ++ shQuote output_path ++
     (" bs=2048 status=progress conv=fsync 2>&1")]

/-- `build_zstd_cmd`. -/
def build_zstd_cmd (input_path : String) (output_path : String) : List String :=
  [("zstd"), ("-v"), ("-T0"), ("-f"), input_path, ("-o"), output_path]

/-- The raw step tuple shapes the embedded rippers emit (the runner's
`norm_step` distinguishes 3-tuples and 4-tuples whose last element is a
weight, a destination or a progress adapter; the adapter is kept as an
opaque tag). -/
inductive RawStep
  | t3 (cmd : List String) (desc : String) (rel : Bool)
  | t4w (cmd : List String) (desc : String) (rel : Bool) (weight : ℚ)
  | t4d (cmd : List String) (desc : String) (rel : Bool) (dest : String)
  | t4a (cmd : List String) (desc : String) (rel : Bool)
deriving DecidableEq

/-- The destination carried by a raw step, when any. -/
def RawStep.destOf : RawStep → Option String
  | .t4d _ _ _ d => some d
  | _ => none

/-- `rip_generic_disc` (Linux).  The filesystem is the explicit list of
existing path strings (for `temp_iso.exists()` and `_unique_path`); the
OTHER config section is passed in.  `none` models the `ValueError` raised
when neither a source drive nor an existing temp ISO is available. -/
def rip_generic_disc (cfg : OtherCfg) (fs : List String) (j : Job) :
    Option (Job × List RawStep) :=
  let use_comp0 := cfg.usecompression
  let comp_alg0 := strLower cfg.compression
  let label0 := sanitize_folder (if j.disc_label = "" then ("DISC") else j.disc_label)
  let label := if label0 = "" then ("DISC") else label0
  let temp_iso :=
    match j.metadata.rom_temp_iso with
    | some s => if s = "" then j.temp_path ++ ("/") ++ label ++ (".iso") else s
    | none => j.temp_path ++ ("/") ++ label ++ (".iso")
  let source_drive := pyOrOpt j.metadata.rom_source_drive j.drive
  let cachedFinal : Option String :=
    match j.metadata.rom_final_iso with
    | some f => if f = "" then none else some f
    | none => none
  let planned :=
    match cachedFinal with
    | some f =>
      (f, j.metadata.rom_use_comp.getD use_comp0,
       (match j.metadata.rom_comp_alg with
        | some a => if a = "" then comp_alg0 else strLower a
        | none => comp_alg0),
       j.metadata)
    | none =>
      let configured := j.output_path
      let base_dir := if strSuffix configured ≠ "" then strParent configured
                      else configured
      let filename0 := if strSuffix configured ≠ "" then strName configured
                       else (String.mk [])
      let filename :=
        if filename0 = "" then
          (if use_comp0 && (comp_alg0 == "zstd") then label ++ (".iso.zst")
           else if use_comp0 && (comp_alg0 == "bz2" || comp_alg0 == "bzip2")
           then label ++ (".iso.bz2")
           else label ++ (".iso"))
        else
          (if use_comp0 && (comp_alg0 == "zstd") && !(strEndsWith filename0 (".zst"))
           then filename0 ++ (".zst")
           else if use_comp0 && (comp_alg0 == "bz2" || comp_alg0 == "bzip2") &&
               !(strEndsWith filename0 (".bz2"))
           then filename0 ++ (".bz2")
           else if !use_comp0 && strEndsWith filename0 (".zst")
           then ⟨filename0.data.take (filename0.data.length - 4)⟩
           else if !use_comp0 && strEndsWith filename0 (".bz2")
           then ⟨filename0.data.take (filename0.data.length - 4)⟩
           else filename0)
      let final := (unique_path fs ⟨base_dir, filename⟩).toStr
      (final, use_comp0, comp_alg0,
       { j.metadata with rom_final_iso := some final,
                         rom_use_comp := some use_comp0,
                         rom_comp_alg := some comp_alg0 })
  match planned with
  | (final_path, use_comp, comp_alg, metaPlanned) =>
    let meta2 := { metaPlanned with rom_temp_iso := some temp_iso }
    let meta3 := if optTruthy source_drive then
        { meta2 with rom_source_drive := source_drive } else meta2
    let jobDrive := if optTruthy source_drive then source_drive else j.drive
    let j' := { j with metadata := meta3, drive := jobDrive,
                       output_path := final_path }
    let iso_exists := fs.contains temp_iso
    if !optTruthy source_drive && !iso_exists then none
    else
      let step1 : RawStep :=
        if iso_exists then
          .t3 [("bash"), ("-lc"),
               ("echo \"[TKAR] Reusing existing ISO: ") ++ shQuote temp_iso ++
                 ("\"")]
            ("Reusing existing ISO image") false
        else
          .t4a (build_iso_dump_cmd (source_drive.getD (String.mk [])) temp_iso)
            ("Creating ISO image") true
      let step2 : RawStep :=
        if use_comp && (comp_alg == "zstd") then
          .t4d (build_zstd_cmd temp_iso final_path) ("Compressing ISO (zstd)")
            false final_path
        else if use_comp && (comp_alg == "bz2" || comp_alg == "bzip2") then
          .t4d [("bash"), ("-lc"),
                ("bzip2 -v -k -f ") ++ shQuote temp_iso ++ (" && mv ") ++
                  shQuote temp_iso ++ (".bz2 ") ++ shQuote final_path]
            ("Compressing ISO (bzip2)") false final_path
        else
          .t4d [("cp"), ("-f"), temp_iso, final_path]
            ("Copying ISO to final destination") false final_path
      some (j', [step1, step2])

/-- The ROM job of end-to-end scenario 1 (disc `MyDisc`, zstd config),
as created by `insert_drive` and already running. -/
def C1job : Job where
  job_id := ("J")
  disc_type := ("other_disc")
  drive := some ("/dev/sr0")
  disc_label := ("MyDisc")
  temp_path := ("/tmp/J")
  output_path := ("/out/MyDisc")
  status := ("Running")

/-- The first planner invocation (at run start, before step 1). -/
def C1plan1 : Option (Job × List RawStep) :=
  rip_generic_disc ⟨true, ("zstd")⟩ [] C1job

/-- The job after `set_output("/out2/Archive.iso.zst")` is accepted
between step 1 and step 2. -/
def C1job2 : Job :=
  (set_output ⟨true, ("zstd")⟩ ((C1plan1.getD (C1job, [])).1)
    (some ("/out2/Archive.iso.zst"))).1

/-- The re-plan the runner performs before executing step 2. -/
def C1plan2 : Option (Job × List RawStep) :=
  rip_generic_disc ⟨true, ("zstd")⟩ [] C1job2

/-- Claim C1 evaluated at the failing input: `set_output` before step 2 is
accepted (`output_path` becomes `/out2`, `override_filename` becomes
`Archive.iso.zst`), but the re-invoked planner restores the destination
cached in `metadata.rom_final_iso` at the first plan: the second step's
command and destination still point at `/out/MyDisc/MyDisc.iso.zst` and
`job.output_path` is overwritten back to it — the rename never takes
effect, contradicting the claim. -/
theorem C1_rom_replan_ignores_rename :
    C1plan1.isSome = true ∧
    C1job2.output_path = ("/out2") ∧
    C1job2.override_filename = some ("Archive.iso.zst") ∧
    C1job2.metadata.rom_final_iso = some ("/out/MyDisc/MyDisc.iso.zst") ∧
    (C1plan2.map (fun r => r.1.output_path)) =
      some ("/out/MyDisc/MyDisc.iso.zst") ∧
    (C1plan2.map (fun r => r.2.map RawStep.destOf)) =
      some [none, some ("/out/MyDisc/MyDisc.iso.zst")] ∧
    (C1plan2.map Prod.snd) = some
      [RawStep.t4a (build_iso_dump_cmd ("/dev/sr0") ("/tmp/J/MyDisc.iso"))
        ("Creating ISO image") true,
       RawStep.t4d (build_zstd_cmd ("/tmp/J/MyDisc.iso")
          ("/out/MyDisc/MyDisc.iso.zst")) ("Compressing ISO (zstd)") false
        ("/out/MyDisc/MyDisc.iso.zst")] ∧
    ("/out/MyDisc/MyDisc.iso.zst" : String) ≠ ("/out2/Archive.iso.zst") := by
  refine ⟨?_, ?_, ?_, ?_, ?_, ?_, ?_, ?_⟩ <;> decide

/-! ## Runner step execution (app/core/job/runner.py `_run_steps`)

The loop is modelled at step granularity: each step's child process is
summarised by the step percentages parsed from its output (stdout parsing
or a progress adapter — every parser yields a value that the loop clamps
into `[0,100]`), its exit code, and whether the OS eject command fails
when the step releases the drive (`_eject_drive` logs and then raises
`HTTPException`, lines 244-251).  Cancellation and the MakeMKV watcher
thread are concurrency and stay outside the model; floats are exact
rationals. -/

/-- A normalised step (the runner's 6-field shape, lines 327-328). -/
structure NStep where
  cmd : List String := []
  desc : String := ("")
  release_after : Bool := false
  weight : ℚ := 1
  dest : Option String := none
  hasAdapter : Bool := false
deriving DecidableEq

/-- `norm_step` (lines 338-364) on the emitted tuple shapes. -/
def norm_step (s : RawStep) (default_weight : ℚ) : NStep :=
  match s with
  | .t3 cmd d r => ⟨cmd, d, r, default_weight, none, false⟩
  | .t4w cmd d r w => ⟨cmd, d, r, w, none, false⟩
  | .t4d cmd d r dest => ⟨cmd, d, r, default_weight, some dest, false⟩
  | .t4a cmd d r => ⟨cmd, d, r, default_weight, none, true⟩

/-- `ROM_WEIGHTS` (lines 174-179); the float literals are the exact
rationals they denote. -/
def ROM_WEIGHTS (dtype : String) : Option (ℚ × ℚ) :=
  if dtype = "cd_rom" then some (1/2, 1/2)
  else if dtype = "dvd_rom" then some (3/5, 2/5)
  else if dtype = "bluray_rom" then some (7/10, 3/10)
  else if dtype = "other_disc" then some (3/5, 2/5)
  else none

/-- `VIDEO_WEIGHTS` (lines 180-183). -/
def VIDEO_WEIGHTS (dtype : String) : Option (ℚ × ℚ) :=
  if dtype = "dvd_video" then some (3/5, 2/5)
  else if dtype = "bluray_video" then some (7/10, 3/10)
  else none

/-- Step normalisation with the per-kind default weights
(lines 366-381). -/
def normalize_steps (dtype : String) (raw : List RawStep) : List NStep :=
  if dtype = "cd_audio" then raw.map (fun s => norm_step s 1)
  else
    match ROM_WEIGHTS dtype with
    | some (w1, w2) =>
      raw.enum.map (fun e => norm_step e.2 (if e.1 = 0 then w1 else w2))
    | none =>
      match VIDEO_WEIGHTS dtype with
      | some (w1, w2) =>
        raw.enum.map (fun e => norm_step e.2 (if e.1 = 0 then w1 else w2))
      | none =>
        let n : Nat := max 1 raw.length
        raw.map (fun s => norm_step s (1 / (n : ℚ)))

/-- The observable outcome of executing one step's child process. -/
structure StepRun where
  parses : List ℚ := []
  rc : Int := 0
  ejectFails : Bool := false
deriving DecidableEq

/-- Lines 618-622: clamp the parsed percentage, store `int(sp)` as the
step progress and `int(round(total * 100.0))` as the weighted total. -/
def applyParse (tdw w : ℚ) (j : Job) (p : ℚ) : Job :=
  let sp := max 0 (min 100 p)
  { j with step_progress := ⌊sp⌋,
           progress := pyRound ((tdw + w * (sp / 100)) * 100) }

/-- Lines 418-421 then 517-622: set the per-step fields, then apply every
parse event of the step in order. -/
def loopJobA (tdw : ℚ) (idx : Nat) (st : NStep) (out : StepRun) (j : Job) :
    Job :=
  out.parses.foldl (applyParse tdw st.weight)
    { j with step := idx, step_description := st.desc, step_progress := 0,
             title_progress := 0 }

/-- Lines 632-639: on exit code 0 credit the step's weight. -/
def loopJobB (tdw : ℚ) (idx : Nat) (st : NStep) (out : StepRun) (j : Job) :
    Job :=
  if out.rc = 0 then
    { loopJobA tdw idx st out j with
        step_progress := 100
        progress := pyRound ((tdw + st.weight) * 100) }
  else loopJobA tdw idx st out j

/-- `total_done_weight` after the step. -/
def loopTdw (tdw : ℚ) (st : NStep) (_out : StepRun) : Bool → ℚ
  | true => tdw + st.weight
  | false => tdw

/-- Lines 665-668: the eject helper raises `HTTPException` exactly when
the step releases the drive, the job still holds one (Python truthiness:
`if self.job.drive:`), and the OS command fails. -/
def loopRaises (tdw : ℚ) (idx : Nat) (st : NStep) (out : StepRun) (j : Job) :
    Bool :=
  st.release_after && optTruthy (loopJobB tdw idx st out j).drive &&
    out.ejectFails

/-- Lines 665-673 when no exception: after a `release_drive_after` step
the job's drive is cleared. -/
def loopJobC (tdw : ℚ) (idx : Nat) (st : NStep) (out : StepRun) (j : Job) :
    Job :=
  if st.release_after then { loopJobB tdw idx st out j with drive := none }
  else loopJobB tdw idx st out j

/-- The `for idx` loop of `_run_steps` over `steps[start-1:]`, threading
`total_done_weight`.  The returned flag records an exception escaping the
loop (the eject helper raising `HTTPException` after a
`release_drive_after` step). -/
def runStepsGo : ℚ → Nat → Job → List (NStep × StepRun) → Job × Bool
  | _, _, j, [] => (j, false)
  | tdw, idx, j, (st, out) :: rest =>
    if loopRaises tdw idx st out j then (loopJobB tdw idx st out j, true)
    else if out.rc ≠ 0 then
      ({ loopJobC tdw idx st out j with status := ("Failed") }, false)
    else runStepsGo (loopTdw tdw st out (out.rc == 0)) (idx + 1)
      (loopJobC tdw idx st out j) rest

/-- `_run_steps` around the loop: set Running and `steps_total`, prefill
the done weight on resume (lines 387-393), run the loop, then either the
catch-all `except` (status Failed, lines 696-702) when an exception
escaped, or the final Finished block (lines 686-694). -/
def run_steps (start_index : Nat) (j : Job)
    (steps : List (NStep × StepRun)) : Job :=
  let j0 := { j with status := ("Running"), steps_total := steps.length }
  let tdw0 : ℚ := ((steps.take (start_index - 1)).map (fun s => s.1.weight)).sum
  let j1 := if start_index > 1 then
      { j0 with progress := pyRound (tdw0 * 100), step := start_index }
    else j0
  match runStepsGo tdw0 start_index j1 (steps.drop (start_index - 1)) with
  | (j2, true) => { j2 with status := ("Failed") }
  | (j2, false) =>
    if j2.status ≠ ("Failed") then
      { j2 with status := ("Finished"), progress := 100, step_progress := 100,
                title_progress := 100 }
    else j2

lemma foldl_applyParse_last (tdw w : ℚ) (j : Job) (ps : List ℚ) (p : ℚ) :
    ((ps ++ [p]).foldl (applyParse tdw w) j).progress =
      pyRound ((tdw + w * ((max 0 (min 100 p)) / 100)) * 100) := by
  induction ps generalizing j with
  | nil => rfl
  | cons q qs ih => exact ih (applyParse tdw w j q)

lemma loopJobB_progress (tdw : ℚ) (idx : Nat) (st : NStep) (out : StepRun)
    (j : Job) (hrc : out.rc = 0) :
    (loopJobB tdw idx st out j).progress = pyRound ((tdw + st.weight) * 100) := by
  unfold loopJobB
  rw [if_pos hrc]

lemma loopJobC_progress (tdw : ℚ) (idx : Nat) (st : NStep) (out : StepRun)
    (j : Job) :
    (loopJobC tdw idx st out j).progress =
      (loopJobB tdw idx st out j).progress := by
  unfold loopJobC
  split <;> rfl

lemma loopRaises_false (tdw : ℚ) (idx : Nat) (st : NStep) (out : StepRun)
    (j : Job) (hej : out.ejectFails = false) :
    loopRaises tdw idx st out j = false := by
  unfold loopRaises
  rw [hej]
  simp

lemma runStepsGo_cons_ok (tdw : ℚ) (idx : Nat) (j : Job) (st : NStep)
    (out : StepRun) (rest : List (NStep × StepRun)) (hrc : out.rc = 0)
    (hej : out.ejectFails = false) :
    runStepsGo tdw idx j ((st, out) :: rest) =
      runStepsGo (tdw + st.weight) (idx + 1) (loopJobC tdw idx st out j)
        rest := by
  have heq : runStepsGo tdw idx j ((st, out) :: rest) =
      if loopRaises tdw idx st out j then (loopJobB tdw idx st out j, true)
      else if out.rc ≠ 0 then
        ({ loopJobC tdw idx st out j with status := ("Failed") }, false)
      else runStepsGo (loopTdw tdw st out (out.rc == 0)) (idx + 1)
        (loopJobC tdw idx st out j) rest := rfl
  rw [heq, loopRaises_false tdw idx st out j hej]
  simp only [Bool.false_eq_true, if_false]
  rw [if_neg (by simp [hrc])]
  have ht : loopTdw tdw st out (out.rc == 0) = tdw + st.weight := by
    rw [hrc]
    rfl
  rw [ht]

lemma runStepsGo_all_ok (pre : List (NStep × StepRun)) :
    pre ≠ [] →
    (∀ x ∈ pre, x.2.rc = 0 ∧ x.2.ejectFails = false) →
    ∀ (tdw : ℚ) (idx : Nat) (j : Job),
      (runStepsGo tdw idx j pre).1.progress =
        pyRound ((tdw + (pre.map (fun x => x.1.weight)).sum) * 100) := by
  induction pre with
  | nil => intro h; exact absurd rfl h
  | cons hd rest ih =>
    intro _ hok tdw idx j
    obtain ⟨st, out⟩ := hd
    have hrc : out.rc = 0 := (hok (st, out) (List.mem_cons_self _ _)).1
    have hej : out.ejectFails = false := (hok (st, out) (List.mem_cons_self _ _)).2
    rw [runStepsGo_cons_ok tdw idx j st out rest hrc hej]
    cases rest with
    | nil =>
      show (loopJobC tdw idx st out j).progress = _
      rw [loopJobC_progress, loopJobB_progress tdw idx st out j hrc]
      congr 1
      simp only [List.map_cons, List.map_nil, List.sum_cons, List.sum_nil,
        add_zero]
    | cons r rs =>
      rw [ih (by simp) (fun x hx => hok x (List.mem_cons_of_mem _ hx))]
      congr 1
      simp only [List.map_cons, List.sum_cons]
      ring

/-- Claim C4: whenever a step percentage `p` (all parsers yield
`0 ≤ p ≤ 100`) is parsed as the latest report during step execution, the
job's total progress equals `round(100 · (total_done_weight + weight ·
p/100))`; and immediately after a run of steps that all exit 0 (and whose
ejects succeed), the total progress equals `round(100 · (tdw₀ + Σ w_k))`
over the executed steps — with `tdw₀` the pre-credited weight of steps
skipped on resume, this is `round(100 · Σ_{k ≤ i} w_k)` after step `i`. -/
theorem C4_weighted_progress :
    (∀ (tdw w : ℚ) (j : Job) (ps : List ℚ) (p : ℚ), 0 ≤ p → p ≤ 100 →
      ((ps ++ [p]).foldl (applyParse tdw w) j).progress =
        pyRound ((tdw + w * (p / 100)) * 100)) ∧
    (∀ (pre : List (NStep × StepRun)), pre ≠ [] →
      (∀ x ∈ pre, x.2.rc = 0 ∧ x.2.ejectFails = false) →
      ∀ (tdw : ℚ) (idx : Nat) (j : Job),
        (runStepsGo tdw idx j pre).1.progress =
          pyRound ((tdw + (pre.map (fun x => x.1.weight)).sum) * 100)) := by
  constructor
  · intro tdw w j ps p hp0 hp1
    rw [foldl_applyParse_last]
    rw [min_eq_right hp1, max_eq_right hp0]
  · intro pre hne hok tdw idx j
    exact runStepsGo_all_ok pre hne hok tdw idx j

/-- A concrete two-step ROM pipeline outcome where everything succeeds. -/
def C4steps : List (NStep × StepRun) :=
  [(⟨build_iso_dump_cmd ("/dev/sr0") ("/tmp/J/MyDisc.iso"),
      ("Creating ISO image"), true, 3/5, none, true⟩, ⟨[], 0, false⟩),
   (⟨build_zstd_cmd ("/tmp/J/MyDisc.iso") ("/out/MyDisc/MyDisc.iso.zst"),
      ("Compressing ISO (zstd)"), false, 2/5,
      some ("/out/MyDisc/MyDisc.iso.zst"), false⟩, ⟨[], 0, false⟩)]

/-- Witness for C4 at a concrete parse event and a concrete successful
two-step run. -/
theorem C4_witness :
    (([] ++ [(50 : ℚ)]).foldl (applyParse 0 (1/2)) C1job).progress =
      pyRound ((0 + (1/2) * ((50 : ℚ) / 100)) * 100) ∧
    (runStepsGo 0 1 C1job C4steps).1.progress =
      pyRound ((0 + (C4steps.map (fun x => x.1.weight)).sum) * 100) :=
  ⟨C4_weighted_progress.1 0 (1/2) C1job [] 50 (by norm_num) (by norm_num),
   C4_weighted_progress.2 C4steps (by simp [C4steps])
     (by intro x hx; simp [C4steps] at hx; rcases hx with rfl | rfl <;>
       exact ⟨rfl, rfl⟩) 0 1 C1job⟩

/-- The two-step ROM outcome where step 1 succeeds but the OS eject
fails. -/
def C2steps : List (NStep × StepRun) :=
  [(⟨build_iso_dump_cmd ("/dev/sr0") ("/tmp/J/MyDisc.iso"),
      ("Creating ISO image"), true, 3/5, none, true⟩, ⟨[], 0, true⟩),
   (⟨build_zstd_cmd ("/tmp/J/MyDisc.iso") ("/out/MyDisc/MyDisc.iso.zst"),
      ("Compressing ISO (zstd)"), false, 2/5,
      some ("/out/MyDisc/MyDisc.iso.zst"), false⟩, ⟨[], 0, false⟩)]

/-- Claim C2 evaluated at the failing input: after step 1 (exit 0,
`release_drive_after` set) the eject command fails; `_eject_drive` logs
and raises `HTTPException`, which escapes `_run_steps`' loop into the
catch-all handler: the job ends with status Failed, the second step never
runs (`step` stays 1), and `job.drive` is never cleared — contradicting
the claim that an eject failure is only logged and not fatal. -/
theorem C2_eject_failure_fails_job :
    (run_steps 1 C1job C2steps).status = ("Failed") ∧
    (run_steps 1 C1job C2steps).step = 1 ∧
    (run_steps 1 C1job C2steps).drive = some ("/dev/sr0") := by
  refine ⟨?_, ?_, ?_⟩ <;> rfl

/-! ## Bootstrap from on-disk state
(app/core/job/tracker.py `_bootstrap_from_state`, lines 77-109)

Each temp-root entry carries the outcome of reading its `state.json`:
no file, `json.loads` raising, valid JSON whose field conversions
(`int(...)`, `Path(...)` in `Job(...)` / `load_state()`) raise, or a fully
converted record. -/

/-- The `state.json` fields the bootstrap reads, after full conversion.
`drive = none` models a JSON null (an absent key is `some ""`). -/
structure StateData where
  job_id : Option String := none
  disc_type : Option String := none
  drive : Option String := none
  disc_label : Option String := none
  output_path : Option String := none
  status : Option String := none
  progress : Option Int := none
  step : Option Nat := none
  steps_total : Option Nat := none
  step_description : Option String := none
  override_filename : Option String := none
deriving DecidableEq

/-- One entry of the temp root.  `stateFile = none`: no `state.json`;
`some none`: `json.loads` raised; `some (some (jid, none))`: valid JSON
whose later field conversions raise; `some (some (jid, some d))`: fully
parseable. -/
structure DirEntry where
  name : String
  isDir : Bool := true
  stateFile : Option (Option (Option String × Option StateData)) := none
deriving DecidableEq

/-- `job_id = data.get("job_id") or d.name`. -/
def effId (dirName : String) (jo : Option String) : String :=
  match jo with
  | some s => if s = "" then dirName else s
  | none => dirName

/-- The status stored in the tracked job: `load_state` reads the on-disk
status (default `"Queued"` from the dataclass), then lines 103-104
rewrite a lowercase-`running`/`queued` status to `Paused`. -/
def bootStatus (d : StateData) : String :=
  let st := d.status.getD ("Queued")
  if strLower st = "running" ∨ strLower st = "queued" then ("Paused") else st

/-- The `Job` built by the bootstrap loop (constructor call lines 92-100
followed by `load_state()`, with the directory as temp path). -/
def bootJob (dirName : String) (jid : String) (d : StateData) : Job where
  job_id := jid
  disc_type := d.disc_type.getD ("other_disc")
  drive := d.drive
  disc_label := d.disc_label.getD dirName
  temp_path := dirName
  output_path :=
    match d.output_path with
    | some s => if s = "" then dirName ++ ("/output") else s
    | none => dirName ++ ("/output")
  steps_total := d.steps_total.getD 1
  step := d.step.getD 1
  step_description := d.step_description.getD ("Initializing")
  status := bootStatus d
  progress := d.progress.getD 0
  override_filename := d.override_filename

/-- One iteration of the bootstrap scan; the accumulator is the id-keyed
job map in insertion order and the removed directory names. -/
def bootStep (acc : List (String × Job) × List String) (e : DirEntry) :
    List (String × Job) × List String :=
  if !e.isDir then acc
  else
    match e.stateFile with
    | none => acc
    | some none => (acc.1, acc.2 ++ [e.name])
    | some (some (jo, fields)) =>
      let jid := effId e.name jo
      if (acc.1.map Prod.fst).contains jid then acc
      else
        match fields with
        | none => (acc.1, acc.2 ++ [e.name])
        | some d => (acc.1 ++ [(jid, bootJob e.name jid d)], acc.2)

/-- `_bootstrap_from_state` over the temp-root listing. -/
def bootstrap_from_state (entries : List DirEntry) :
    List (String × Job) × List String :=
  entries.foldl bootStep ([], [])

/-- A fully parsed directory entry yielding job id `jid`. -/
def YieldsId (e : DirEntry) (jid : String) : Prop :=
  e.isDir = true ∧ ∃ jo d, e.stateFile = some (some (jo, some d)) ∧
    effId e.name jo = jid

lemma bootStep_jobs_extend (acc : List (String × Job) × List String)
    (e : DirEntry) :
    ∃ tail, (bootStep acc e).1 = acc.1 ++ tail := by
  unfold bootStep
  by_cases hdir : (!e.isDir) = true
  · rw [if_pos hdir]
    exact ⟨[], by simp⟩
  · rw [if_neg hdir]
    cases hsf : e.stateFile with
    | none => exact ⟨[], by simp⟩
    | some inner =>
      cases inner with
      | none => exact ⟨[], by simp⟩
      | some pr =>
        obtain ⟨jo, fields⟩ := pr
        dsimp only
        by_cases hdup : ((acc.1.map Prod.fst).contains (effId e.name jo)) = true
        · rw [if_pos hdup]
          exact ⟨[], by simp⟩
        · rw [if_neg hdup]
          cases fields with
          | none => exact ⟨[], by simp⟩
          | some d => exact ⟨_, rfl⟩

lemma bootStep_deleted_extend (acc : List (String × Job) × List String)
    (e : DirEntry) :
    ∃ tail, (bootStep acc e).2 = acc.2 ++ tail := by
  unfold bootStep
  by_cases hdir : (!e.isDir) = true
  · rw [if_pos hdir]
    exact ⟨[], by simp⟩
  · rw [if_neg hdir]
    cases hsf : e.stateFile with
    | none => exact ⟨[], by simp⟩
    | some inner =>
      cases inner with
      | none => exact ⟨_, rfl⟩
      | some pr =>
        obtain ⟨jo, fields⟩ := pr
        dsimp only
        by_cases hdup : ((acc.1.map Prod.fst).contains (effId e.name jo)) = true
        · rw [if_pos hdup]
          exact ⟨[], by simp⟩
        · rw [if_neg hdup]
          cases fields with
          | none => exact ⟨_, rfl⟩
          | some d => exact ⟨[], by simp⟩

lemma contains_iff_mem (l : List String) (s : String) :
    l.contains s = true ↔ s ∈ l := by
  induction l with
  | nil => simp
  | cons a as ih =>
    cases h : s == a with
    | true =>
      have hsa : s = a := eq_of_beq h
      subst hsa
      simp
    | false =>
      have hne : s ≠ a := by
        intro hh
        subst hh
        simp at h
      simp only [List.contains_cons, h, Bool.false_or, List.mem_cons]
      rw [ih]
      exact ⟨Or.inr, fun hor => hor.resolve_left hne⟩

lemma boot_foldl_jobs_extend (entries : List DirEntry) :
    ∀ acc, ∃ tail, (entries.foldl bootStep acc).1 = acc.1 ++ tail := by
  induction entries with
  | nil => intro acc; exact ⟨[], by simp⟩
  | cons e rest ih =>
    intro acc
    obtain ⟨t1, h1⟩ := bootStep_jobs_extend acc e
    obtain ⟨t2, h2⟩ := ih (bootStep acc e)
    exact ⟨t1 ++ t2, by rw [List.foldl_cons, h2, h1, List.append_assoc]⟩

lemma boot_foldl_deleted_extend (entries : List DirEntry) :
    ∀ acc, ∃ tail, (entries.foldl bootStep acc).2 = acc.2 ++ tail := by
  induction entries with
  | nil => intro acc; exact ⟨[], by simp⟩
  | cons e rest ih =>
    intro acc
    obtain ⟨t1, h1⟩ := bootStep_deleted_extend acc e
    obtain ⟨t2, h2⟩ := ih (bootStep acc e)
    exact ⟨t1 ++ t2, by rw [List.foldl_cons, h2, h1, List.append_assoc]⟩

lemma bootStep_mem_iff (acc : List (String × Job) × List String)
    (e : DirEntry) (jid : String) :
    jid ∈ (bootStep acc e).1.map Prod.fst ↔
      (jid ∈ acc.1.map Prod.fst ∨ YieldsId e jid) := by
  unfold bootStep
  by_cases hdir : e.isDir = true
  · simp only [hdir, Bool.not_true, Bool.false_eq_true, if_false]
    cases hsf : e.stateFile with
    | none => simp [YieldsId, hsf]
    | some inner =>
      cases inner with
      | none => simp [YieldsId, hsf]
      | some pr =>
        obtain ⟨jo, fields⟩ := pr
        cases fields with
        | none =>
          simp only
          split
          · simp [YieldsId, hsf]
          · simp [YieldsId, hsf]
        | some d =>
          simp only
          by_cases hdup : ((acc.1.map Prod.fst).contains (effId e.name jo)) = true
          · rw [if_pos hdup]
            have hmem := (contains_iff_mem _ _).mp hdup
            constructor
            · exact Or.inl
            · rintro (h | h)
              · exact h
              · obtain ⟨_, jo', d', hsf', heff⟩ := h
                rw [hsf] at hsf'
                injection hsf' with h1
                injection h1 with h2
                injection h2 with h3 h4
                subst h3
                rw [← heff]
                exact hmem
          · rw [if_neg hdup]
            simp only [List.map_append, List.map_cons, List.map_nil,
              List.mem_append, List.mem_cons, List.not_mem_nil, or_false]
            constructor
            · rintro (h | h)
              · exact Or.inl h
              · exact Or.inr ⟨hdir, jo, d, hsf, h.symm⟩
            · rintro (h | h)
              · exact Or.inl h
              · obtain ⟨_, jo', d', hsf', heff⟩ := h
                rw [hsf] at hsf'
                injection hsf' with h1
                injection h1 with h2
                injection h2 with h3 h4
                subst h3
                exact Or.inr heff.symm
  · have hdir' : e.isDir = false := by
      cases h : e.isDir
      · rfl
      · exact absurd h hdir
    simp [hdir', YieldsId]

lemma boot_mem_iff (entries : List DirEntry) :
    ∀ (acc : List (String × Job) × List String) (jid : String),
      jid ∈ (entries.foldl bootStep acc).1.map Prod.fst ↔
      (jid ∈ acc.1.map Prod.fst ∨ ∃ e ∈ entries, YieldsId e jid) := by
  induction entries with
  | nil => intro acc jid; simp
  | cons e rest ih =>
    intro acc jid
    rw [List.foldl_cons, ih, bootStep_mem_iff]
    constructor
    · rintro ((h | h) | h)
      · exact Or.inl h
      · exact Or.inr ⟨e, List.mem_cons_self _ _, h⟩
      · obtain ⟨e', he', hy⟩ := h
        exact Or.inr ⟨e', List.mem_cons_of_mem _ he', hy⟩
    · rintro (h | h)
      · exact Or.inl (Or.inl h)
      · obtain ⟨e', he', hy⟩ := h
        rcases List.mem_cons.mp he' with rfl | hrest
        · exact Or.inl (Or.inr hy)
        · exact Or.inr ⟨e', hrest, hy⟩

/-- A tracked pair was built from this directory entry. -/
def BuiltFrom (e : DirEntry) (x : String × Job) : Prop :=
  e.isDir = true ∧ ∃ jo d, e.stateFile = some (some (jo, some d)) ∧
    x.1 = effId e.name jo ∧ x.2 = bootJob e.name x.1 d

lemma bootStep_mem_pair (acc : List (String × Job) × List String)
    (e : DirEntry) (x : String × Job) :
    x ∈ (bootStep acc e).1 → x ∈ acc.1 ∨ BuiltFrom e x := by
  unfold bootStep
  by_cases hdir : (!e.isDir) = true
  · rw [if_pos hdir]
    exact Or.inl
  · rw [if_neg hdir]
    have hdir' : e.isDir = true := by
      cases h : e.isDir
      · rw [h] at hdir; exact absurd rfl hdir
      · rfl
    cases hsf : e.stateFile with
    | none => exact Or.inl
    | some inner =>
      cases inner with
      | none => exact Or.inl
      | some pr =>
        obtain ⟨jo, fields⟩ := pr
        dsimp only
        by_cases hdup : ((acc.1.map Prod.fst).contains (effId e.name jo)) = true
        · rw [if_pos hdup]
          exact Or.inl
        · rw [if_neg hdup]
          cases fields with
          | none => exact Or.inl
          | some d =>
            intro hx
            rcases List.mem_append.mp hx with h | h
            · exact Or.inl h
            · rcases List.mem_singleton.mp h with rfl
              exact Or.inr ⟨hdir', jo, d, hsf, rfl, rfl⟩

lemma boot_mem_pair (entries : List DirEntry) :
    ∀ (acc : List (String × Job) × List String) (x : String × Job),
      x ∈ (entries.foldl bootStep acc).1 →
      x ∈ acc.1 ∨ ∃ e ∈ entries, BuiltFrom e x := by
  induction entries with
  | nil => intro acc x hx; exact Or.inl hx
  | cons e rest ih =>
    intro acc x hx
    rcases ih (bootStep acc e) x hx with h | h
    · rcases bootStep_mem_pair acc e x h with h' | h'
      · exact Or.inl h'
      · exact Or.inr ⟨e, List.mem_cons_self _ _, h'⟩
    · obtain ⟨e', he', hb⟩ := h
      exact Or.inr ⟨e', List.mem_cons_of_mem _ he', hb⟩

lemma bootStep_nodup (acc : List (String × Job) × List String) (e : DirEntry)
    (h : (acc.1.map Prod.fst).Nodup) :
    ((bootStep acc e).1.map Prod.fst).Nodup := by
  unfold bootStep
  by_cases hdir : (!e.isDir) = true
  · rwa [if_pos hdir]
  · rw [if_neg hdir]
    cases hsf : e.stateFile with
    | none => exact h
    | some inner =>
      cases inner with
      | none => exact h
      | some pr =>
        obtain ⟨jo, fields⟩ := pr
        dsimp only
        by_cases hdup : ((acc.1.map Prod.fst).contains (effId e.name jo)) = true
        · rwa [if_pos hdup]
        · rw [if_neg hdup]
          cases fields with
          | none => exact h
          | some d =>
            have hnotmem : effId e.name jo ∉ acc.1.map Prod.fst := by
              intro hm
              exact hdup ((contains_iff_mem _ _).mpr hm)
            simp only [List.map_append, List.map_cons, List.map_nil]
            rw [List.nodup_append]
            refine ⟨h, List.nodup_singleton _, ?_⟩
            intro a ha hb
            rcases List.mem_singleton.mp hb with rfl
            exact hnotmem ha

lemma boot_nodup (entries : List DirEntry) :
    ∀ (acc : List (String × Job) × List String),
      (acc.1.map Prod.fst).Nodup →
      ((entries.foldl bootStep acc).1.map Prod.fst).Nodup := by
  induction entries with
  | nil => intro acc h; exact h
  | cons e rest ih =>
    intro acc h
    exact ih (bootStep acc e) (bootStep_nodup acc e h)

lemma boot_deleted_json (entries : List DirEntry) :
    ∀ (acc : List (String × Job) × List String), ∀ e ∈ entries,
      e.isDir = true → e.stateFile = some none →
      e.name ∈ (entries.foldl bootStep acc).2 := by
  induction entries with
  | nil => intro acc e he; simp at he
  | cons e' rest ih =>
    intro acc e he hdir hsf
    rcases List.mem_cons.mp he with rfl | hrest
    · have hstep : (bootStep acc e).2 = acc.2 ++ [e.name] := by
        unfold bootStep
        rw [if_neg (by simp [hdir]), hsf]
      obtain ⟨tail, ht⟩ := boot_foldl_deleted_extend rest (bootStep acc e)
      rw [List.foldl_cons, ht, hstep]
      simp
    · exact ih (bootStep acc e') e hrest hdir hsf

lemma boot_deleted_fields (entries : List DirEntry) :
    ∀ (acc : List (String × Job) × List String), ∀ e ∈ entries,
      e.isDir = true → ∀ jo, e.stateFile = some (some (jo, none)) →
      e.name ∈ (entries.foldl bootStep acc).2 ∨
        effId e.name jo ∈ (entries.foldl bootStep acc).1.map Prod.fst := by
  induction entries with
  | nil => intro acc e he; simp at he
  | cons e' rest ih =>
    intro acc e he hdir jo hsf
    rcases List.mem_cons.mp he with rfl | hrest
    · by_cases hdup : ((acc.1.map Prod.fst).contains (effId e.name jo)) = true
      · right
        have hmem := (contains_iff_mem _ _).mp hdup
        obtain ⟨tail, ht⟩ := boot_foldl_jobs_extend rest (bootStep acc e)
        obtain ⟨tail0, ht0⟩ := bootStep_jobs_extend acc e
        rw [List.foldl_cons, ht, ht0]
        simp only [List.map_append, List.mem_append]
        exact Or.inl (Or.inl hmem)
      · left
        have hstep : (bootStep acc e).2 = acc.2 ++ [e.name] := by
          unfold bootStep
          rw [if_neg (by simp [hdir]), hsf]
          dsimp only
          rw [if_neg hdup]
        obtain ⟨tail, ht⟩ := boot_foldl_deleted_extend rest (bootStep acc e)
        rw [List.foldl_cons, ht, hstep]
        simp
    · rcases ih (bootStep acc e') e hrest hdir jo hsf with h | h
      · exact Or.inl (by rw [List.foldl_cons]; exact h)
      · exact Or.inr (by rw [List.foldl_cons]; exact h)

/-- Claim C6 (amended): after the startup scan (i) the tracked job ids are
duplicate-free and are exactly the effective ids of the fully parseable
subdirectories — the first directory bearing each id yields its one
tracked job, and a later directory with an already-tracked id yields no
job and is not deleted; (ii) every tracked job is built from a fully
parsed entry, so its in-memory status is the stored status with Running
and Queued (case-insensitively) rewritten to Paused and every other
status kept as stored; (iii) every subdirectory whose state.json fails
JSON parsing is deleted; one whose JSON parses but whose field
conversions raise is deleted unless its id was already tracked. -/
theorem C6_bootstrap_postcondition :
    ∀ entries : List DirEntry,
      ((bootstrap_from_state entries).1.map Prod.fst).Nodup ∧
      (∀ jid, jid ∈ (bootstrap_from_state entries).1.map Prod.fst ↔
        ∃ e ∈ entries, YieldsId e jid) ∧
      (∀ x ∈ (bootstrap_from_state entries).1, ∃ e ∈ entries, BuiltFrom e x) ∧
      (∀ (dirName jid : String) (d : StateData),
        (strLower (d.status.getD ("Queued")) = "running" ∨
         strLower (d.status.getD ("Queued")) = "queued") →
        (bootJob dirName jid d).status = ("Paused")) ∧
      (∀ (dirName jid : String) (d : StateData),
        ¬(strLower (d.status.getD ("Queued")) = "running" ∨
          strLower (d.status.getD ("Queued")) = "queued") →
        (bootJob dirName jid d).status = d.status.getD ("Queued")) ∧
      (∀ e ∈ entries, e.isDir = true → e.stateFile = some none →
        e.name ∈ (bootstrap_from_state entries).2) ∧
      (∀ e ∈ entries, e.isDir = true → ∀ jo,
        e.stateFile = some (some (jo, none)) →
        e.name ∈ (bootstrap_from_state entries).2 ∨
          effId e.name jo ∈ (bootstrap_from_state entries).1.map Prod.fst) := by
  intro entries
  refine ⟨boot_nodup entries ([], []) (by simp), ?_, ?_, ?_, ?_,
    boot_deleted_json entries ([], []), boot_deleted_fields entries ([], [])⟩
  · intro jid
    rw [show (bootstrap_from_state entries) = entries.foldl bootStep ([], [])
      from rfl, boot_mem_iff]
    simp
  · intro x hx
    rcases boot_mem_pair entries ([], []) x hx with h | h
    · simp at h
    · exact h
  · intro dirName jid d h
    show bootStatus d = _
    unfold bootStatus
    rw [if_pos h]
  · intro dirName jid d h
    show bootStatus d = _
    unfold bootStatus
    rw [if_neg h]

/-- Two fully parseable directories carrying the same `job_id`. -/
def C6dupA : DirEntry :=
  ⟨("d1"), true, some (some (some ("J"), some { status := some ("Finished") }))⟩

/-- The second directory, same id, different stored status. -/
def C6dupB : DirEntry :=
  ⟨("d2"), true, some (some (some ("J"), some { status := some ("Failed") }))⟩

/-- Counterexample for C6 as stated: both subdirectories have fully
parseable `state.json`, yet the scan tracks exactly one job (the first);
the second, whose stored status Failed should have been kept as a
tracked job per the claim, yields no job at all — and it is not deleted
either. -/
theorem C6_counterexample :
    (bootstrap_from_state [C6dupA, C6dupB]).1 =
      [(("J"), bootJob ("d1") ("J") { status := some ("Finished") })] ∧
    (bootstrap_from_state [C6dupA, C6dupB]).2 = [] ∧
    (bootJob ("d1") ("J") { status := some ("Finished") }).status =
      ("Finished") := by
  refine ⟨?_, ?_, ?_⟩ <;> rfl

/-- Witness for C6: a directory with stored status `Running` reads back
as Paused, one with `Failed` keeps its status; a JSON-corrupt directory
is deleted. -/
theorem C6_witness :
    (bootJob ("d1") ("J") { status := some ("Running"), drive := some ("/dev/sr0") }).status
      = ("Paused") ∧
    (bootJob ("d2") ("K") { status := some ("Failed") }).status = ("Failed") ∧
    ("bad") ∈ (bootstrap_from_state [⟨("bad"), true, some none⟩]).2 :=
  ⟨(C6_bootstrap_postcondition []).2.2.2.1 ("d1") ("J")
      { status := some ("Running"), drive := some ("/dev/sr0") } (by decide),
   (C6_bootstrap_postcondition []).2.2.2.2.1 ("d2") ("K")
      { status := some ("Failed") } (by decide),
   (C6_bootstrap_postcondition [⟨("bad"), true, some none⟩]).2.2.2.2.2.1
      ⟨("bad"), true, some none⟩ (List.mem_singleton.mpr rfl) rfl rfl⟩

/-! ## Insertion-ordered string-keyed maps

Python dicts preserve insertion order and the tracker code iterates them;
both `DriveTracker.drives` and `JobTracker.jobs` are modelled as
association lists with duplicate-free keys. -/

/-- `dict.get(k)`: value at the first (for nodup keys, only) matching key. -/
def lookupL {α : Type} (l : List (String × α)) (k : String) : Option α :=
  match l with
  | [] => none
  | e :: rest => if e.1 = k then some e.2 else lookupL rest k

/-- In-place value update (`dict[k]` mutation), order preserved. -/
def updateL {α : Type} (l : List (String × α)) (k : String) (f : α → α) :
    List (String × α) :=
  l.map (fun e => if e.1 = k then (e.1, f e.2) else e)

/-! ## C3: drive/job exclusivity (app/core/drive/manager.py, app/api/drives.py)

The registry (`DriveTracker.drives`) and the tracker map
(`JobTracker.jobs`) are insertion-ordered string-keyed maps.  All
handler bodies run under the tracker locks, so the system is modelled as
a transition relation whose steps are the serialized handler actions. -/

/-- The `Drive` record: the fields read and written by `DriveTracker`,
`insert_drive` and `list_drives` (the class itself lives in
app/core/drive/drive.py, which is not in the source tree). -/
structure Drive where
  id : String
  path : Option String := none
  model : String := ("Unknown")
  capability : List String := []
  disc_label : Option String := none
  job_id : Option String := none
  blacklisted : Bool := false
deriving DecidableEq

/-- Modelled from the spec: app/core/drive/drive.py is absent from src/,
and the spec defines `assign_job` to succeed "only when the drive is
available (no `job_id`, not blacklisted)". -/
def Drive.is_available (d : Drive) : Bool :=
  d.job_id.isNone && !d.blacklisted

/-- `DriveTracker._resolve_key`: a present dict key wins, else the first
record whose `id` or `path` matches. -/
def resolve_key (drives : List (String × Drive)) (ident : Option String) :
    Option String :=
  match ident with
  | none => none
  | some s =>
    if drives.any (fun e => e.1 == s) then some s
    else (drives.find? (fun e =>
      (e.2.id == s) || (e.2.path == some s))).map Prod.fst

/-- `DriveTracker.register_drive` as called with `drive_id=None`
(the only call shape in this repository outside macOS code):
`key = resolve(path) or path`; an existing record keeps `job_id`,
`blacklisted` and `disc_label`, a fresh one starts unassigned. -/
def register_drive (drives : List (String × Drive)) (path model : String)
    (capability : List String) : List (String × Drive) :=
  let key := (resolve_key drives (some path)).getD path
  match lookupL drives key with
  | some _ =>
    updateL drives key (fun d =>
      { d with id := if d.id = "" then key else d.id, path := some path,
               model := model, capability := capability })
  | none =>
    drives ++ [(key,
      { id := key, path := some path, model := model,
        capability := capability })]

/-- `DriveTracker.get_drive`. -/
def get_drive (drives : List (String × Drive)) (path : String) :
    Option Drive :=
  match resolve_key drives (some path) with
  | some key => lookupL drives key
  | none => none

/-- `DriveTracker.assign_job`: assigns only an available drive; returns
the new registry and the success flag. -/
def assign_job (drives : List (String × Drive)) (path job_id : String) :
    List (String × Drive) × Bool :=
  match resolve_key drives (some path) with
  | none => (drives, false)
  | some key =>
    match lookupL drives key with
    | none => (drives, false)
    | some d =>
      if d.is_available then
        (updateL drives key (fun d0 => { d0 with job_id := some job_id }),
         true)
      else (drives, false)

/-- `DriveTracker.release_drive` (callers pass `job.drive`, which may be
`None`). -/
def release_drive (drives : List (String × Drive)) (path : Option String) :
    List (String × Drive) × Bool :=
  match resolve_key drives path with
  | none => (drives, false)
  | some key =>
    match lookupL drives key with
    | none => (drives, false)
    | some _ =>
      (updateL drives key (fun d0 => { d0 with job_id := none }), true)

/-- `DriveTracker.unregister_drive`. -/
def unregister_drive (drives : List (String × Drive)) (path : String) :
    List (String × Drive) :=
  match resolve_key drives (some path) with
  | none => drives
  | some key => drives.filter (fun e => !(e.1 == key))

/-- `DriveTracker.blacklist_drive` / `unblacklist_drive`. -/
def set_blacklist (drives : List (String × Drive)) (path : String)
    (b : Bool) : List (String × Drive) :=
  match resolve_key drives (some path) with
  | none => drives
  | some key => updateL drives key (fun d0 => { d0 with blacklisted := b })

/-- Terminal job statuses (the exact strings the code stores). -/
def isTerminal (st : String) : Bool :=
  st == ("Finished") || st == ("Failed") || st == ("Cancelled")

/-- Global state: the drive registry, the tracker map, and the ghost
list of job ids created by `insert_drive` (exactly the jobs that were
given a `JobRunner`). -/
structure SysState where
  drives : List (String × Drive)
  jobs : List (String × Job)
  inserted : List String
deriving DecidableEq

/-- insert_drive lines 55-56: register the drive when the tracker does
not know it yet. -/
def insertDrives1 (drives : List (String × Drive)) (path : String) :
    List (String × Drive) :=
  if (get_drive drives path).isSome then drives
  else register_drive drives path ("Unknown") [("Unknown")]

/-- The `POST /api/drives/insert` handler body: 400 on a missing field;
register the drive if unknown; skip job creation when the (present)
record is busy; otherwise `create_job` (status `Queued`, `drive` set,
fresh uuid `jid`) followed by `assign_job`.  `temp_dir`/`output_base`
stand for the two config reads. -/
def insert_drive (s : SysState) (path dtRaw lbl jid temp_dir : String)
    (output_base : String) : SysState × Bool :=
  let dt := strLower dtRaw
  if path = "" ∨ dt = "" ∨ lbl = "" then (s, false)
  else
    let drives1 := insertDrives1 s.drives path
    let busy :=
      match get_drive drives1 path with
      | some drv => !drv.is_available
      | none => false
    if busy then ({ s with drives := drives1 }, false)
    else
      let safe_label := sanitize_folder lbl
      let job : Job :=
        { job_id := jid, disc_type := dt, drive := some path,
          disc_label := lbl, temp_path := temp_dir ++ ("/") ++ jid,
          output_path := output_base ++ ("/") ++ safe_label }
      ({ drives := (assign_job drives1 path jid).1,
         jobs := s.jobs ++ [(jid, job)],
         inserted := s.inserted ++ [jid] }, true)

/-- `job.status = st` (the runner/tracker status writes). -/
def setStatus (st : String) (j0 : Job) : Job := { j0 with status := st }

/-- `job.drive = None` after a release-after step. -/
def clearDrive (j0 : Job) : Job := { j0 with drive := none }

/-- The end-of-run success write (runner.py lines 686-690). -/
def finishJob (j0 : Job) : Job :=
  { j0 with status := ("Finished"), progress := 100, step_progress := 100,
            title_progress := 100 }

/-- The `POST /api/jobs/{job_id}/cancel` handler (app/api/jobs.py lines
46-54): 404 on an unknown id is a no-op here; `runner.cancel()` runs
only when the job has a runner — `job.runner` is set in exactly one
place, `JobRunner.__init__` (runner.py line 257), and the only
`JobRunner(...)` construction is in `insert_drive` (drives.py line 97),
so a job has a runner iff its id is in the ghost `inserted` list; then
line 53 calls `release_drive(job.drive)` unconditionally, also for a
runner-less bootstrapped job. -/
def cancel_job_api (s : SysState) (jid : String) : SysState :=
  match lookupL s.jobs jid with
  | none => s
  | some j =>
    let s1 :=
      if s.inserted.contains jid then
        { s with
          jobs := updateL s.jobs jid (setStatus ("Cancelled")),
          drives := (release_drive s.drives j.drive).1 }
      else s
    { s1 with drives := (release_drive s1.drives j.drive).1 }

/-- The `POST /api/drives/remove` handler (app/api/drives.py lines
103-117): untracked drive is a no-op; when the record carries a
`job_id`, `runner.cancel()` runs if the job has a runner,
`job_tracker.cancel_job` marks the job Cancelled if it exists, and the
record named by `path` is released. -/
def remove_drive (s : SysState) (path : String) : SysState :=
  match get_drive s.drives path with
  | none => s
  | some drv =>
    match drv.job_id with
    | none => { s with drives := (release_drive s.drives (some path)).1 }
    | some jid =>
      let s1 :=
        match lookupL s.jobs jid with
        | none => s
        | some j =>
          if s.inserted.contains jid then
            { s with
              jobs := updateL s.jobs jid (setStatus ("Cancelled")),
              drives := (release_drive s.drives j.drive).1 }
          else s
      let s2 := { s1 with
        jobs := updateL s1.jobs jid (setStatus ("Cancelled")) }
      { s2 with drives := (release_drive s2.drives (some path)).1 }

/-- The `POST /api/drives/eject` handler (app/api/drives.py lines
135-155): cancels the record's runner-backed job, if any, before the
OS eject (which touches no tracked state). -/
def eject_api (s : SysState) (path : String) : SysState :=
  match get_drive s.drives path with
  | none => s
  | some drv =>
    match drv.job_id with
    | none => s
    | some jid =>
      match lookupL s.jobs jid with
      | none => s
      | some j =>
        if s.inserted.contains jid then
          { s with
            jobs := updateL s.jobs jid (setStatus ("Cancelled")),
            drives := (release_drive s.drives j.drive).1 }
        else s

/-- One serialized handler/runner action. -/
inductive SysStep : SysState → SysState → Prop where
  | register (s : SysState) (path model : String) (cap : List String) :
      SysStep s { s with drives := register_drive s.drives path model cap }
  | insert (s : SysState) (path dtRaw lbl jid temp_dir ob : String)
      (hfresh : lookupL s.jobs jid = none) :
      SysStep s (insert_drive s path dtRaw lbl jid temp_dir ob).1
  | startRun (s : SysState) (jid : String) (j : Job)
      (hj : lookupL s.jobs jid = some j) (hq : j.status = ("Queued")) :
      SysStep s
        { s with jobs := updateL s.jobs jid (setStatus ("Running")) }
  | stepRelease (s : SysState) (jid : String) (j : Job)
      (hj : lookupL s.jobs jid = some j) (hr : j.status = ("Running")) :
      SysStep s
        { s with drives := (release_drive s.drives j.drive).1,
                 jobs := updateL s.jobs jid clearDrive }
  | finish (s : SysState) (jid : String) (j : Job)
      (hj : lookupL s.jobs jid = some j) (hr : j.status = ("Running")) :
      SysStep s { s with jobs := updateL s.jobs jid finishJob }
  | fail (s : SysState) (jid : String) :
      SysStep s
        { s with jobs := updateL s.jobs jid (setStatus ("Failed")) }
  | cancelApi (s : SysState) (jid : String) :
      SysStep s (cancel_job_api s jid)
  | removeDrive (s : SysState) (path : String) :
      SysStep s (remove_drive s path)
  | ejectApi (s : SysState) (path : String) :
      SysStep s (eject_api s path)
  | blacklist (s : SysState) (path : String) (b : Bool) :
      SysStep s { s with drives := set_blacklist s.drives path b }
  | unregister (s : SysState) (path : String) :
      SysStep s { s with drives := unregister_drive s.drives path }

/-- The state after `JobTracker.__init__` bootstraps from the temp root:
empty registry, the bootstrapped jobs, no runner-backed jobs yet. -/
def bootState (entries : List DirEntry) : SysState :=
  { drives := [], jobs := (bootstrap_from_state entries).1, inserted := [] }

/-- States the system can reach from a startup bootstrap. -/
inductive Reachable : SysState → Prop where
  | boot (entries : List DirEntry) : Reachable (bootState entries)
  | step {s t : SysState} : Reachable s → SysStep s t → Reachable t

/-- The claimed invariant: no two distinct jobs with a non-terminal
status (not Finished, Failed or Cancelled) hold the same drive. -/
def DriveUniq (s : SysState) : Prop :=
  ∀ k1 j1 k2 j2 p, (k1, j1) ∈ s.jobs → (k2, j2) ∈ s.jobs →
    isTerminal j1.status = false → isTerminal j2.status = false →
    j1.drive = some p → j2.drive = some p → k1 = k2

/-- The one bootstrap entry of the counterexample runs: a crash left a
state.json recording a Running job that still holds /dev/sr0 (exactly
what `save_state` writes while a rip runs). -/
def c3Data : StateData :=
  { status := some ("Running"), drive := some ("/dev/sr0") }

def c3Entry : DirEntry :=
  { name := ("j1"), isDir := true,
    stateFile := some (some (some ("j1"), some c3Data)) }

def c3Boot : SysState := bootState [c3Entry]

/-- Run 1: the bootstrap followed by one disc insertion on the same
drive. -/
def c3Bad : SysState :=
  (insert_drive c3Boot ("/dev/sr0") ("other_disc") ("MyDisc") ("j2")
    ("/tmp") ("/out")).1

/-- The job `insert_drive` creates in run 1. -/
def c3NewJob : Job :=
  { job_id := ("j2"), disc_type := ("other_disc"),
    drive := some ("/dev/sr0"), disc_label := ("MyDisc"),
    temp_path := ("/tmp/j2"), output_path := ("/out/MyDisc") }

/-- Run 2, step 1: insert a disc, creating runner-backed job `a` on
/dev/sr0. -/
def c3S1 : SysState :=
  (insert_drive c3Boot ("/dev/sr0") ("other_disc") ("MyDisc") ("a")
    ("/tmp") ("/out")).1

/-- Run 2, step 2: `POST /api/jobs/j1/cancel` on the runner-less
bootstrapped job releases the record that job `a` holds. -/
def c3S2 : SysState := cancel_job_api c3S1 ("j1")

/-- Run 2, step 3: a second insertion finds the record available and
creates runner-backed job `c` on the same drive. -/
def c3S3 : SysState :=
  (insert_drive c3S2 ("/dev/sr0") ("other_disc") ("Disc2") ("c")
    ("/tmp") ("/out")).1

def c3JobA : Job :=
  { job_id := ("a"), disc_type := ("other_disc"),
    drive := some ("/dev/sr0"), disc_label := ("MyDisc"),
    temp_path := ("/tmp/a"), output_path := ("/out/MyDisc") }

def c3JobC : Job :=
  { job_id := ("c"), disc_type := ("other_disc"),
    drive := some ("/dev/sr0"), disc_label := ("Disc2"),
    temp_path := ("/tmp/c"), output_path := ("/out/Disc2") }

/-- C3: the claimed exclusivity invariant fails on reachable runs,
while the two local guards the claim names do hold.
Conjunct 1: a reachable state (bootstrap + one insertion) holds two
distinct non-terminal jobs on the same drive — the bootstrap resurrects
a Paused job still bound to /dev/sr0 while the registry restarts empty.
Conjunct 2: the failure is not confined to bootstrapped jobs: the
unguarded cancel handler, run on the runner-less bootstrapped job,
releases the drive record out from under runner-backed job `a`, and a
second insertion yields two insert_drive-created non-terminal jobs
(`a` and `c`) on the drive.
Conjunct 3: `assign_job` never assigns a drive whose tracked record
already carries a `job_id`.
Conjunct 4: when `insert_drive` reports a created job, any record the
(possibly just-registered) registry holds for that drive was
available. -/
theorem C3_nonterminal_drive_sharing :
    (∃ s : SysState, Reachable s ∧ ¬ DriveUniq s) ∧
    (∃ s : SysState, Reachable s ∧
      (("a"), c3JobA) ∈ s.jobs ∧ (("c"), c3JobC) ∈ s.jobs ∧
      ("a") ∈ s.inserted ∧ ("c") ∈ s.inserted ∧
      isTerminal c3JobA.status = false ∧
      isTerminal c3JobC.status = false ∧
      c3JobA.drive = some ("/dev/sr0") ∧
      c3JobC.drive = some ("/dev/sr0")) ∧
    (∀ drives path jid key d, resolve_key drives (some path) = some key →
      lookupL drives key = some d → d.job_id.isSome = true →
      assign_job drives path jid = (drives, false)) ∧
    (∀ s2 : SysState, ∀ path dtRaw lbl jid td ob,
      (insert_drive s2 path dtRaw lbl jid td ob).2 = true →
      ∀ drv, get_drive (insertDrives1 s2.drives path) path = some drv →
      drv.is_available = true) := by
  refine ⟨⟨c3Bad, ?_, ?_⟩, ⟨c3S3, ?_, by decide, by decide, by decide,
    by decide, by decide, by decide, by decide, by decide⟩, ?_, ?_⟩
  · exact Reachable.step (Reachable.boot [c3Entry])
      (SysStep.insert c3Boot ("/dev/sr0") ("other_disc") ("MyDisc")
        ("j2") ("/tmp") ("/out") (by decide))
  · intro h
    have h2 := h ("j1") (bootJob ("j1") ("j1") c3Data) ("j2") c3NewJob
      ("/dev/sr0") (by decide) (by decide) (by decide) (by decide)
      (by decide) (by decide)
    exact absurd h2 (by decide)
  · exact Reachable.step (Reachable.step (Reachable.step
      (Reachable.boot [c3Entry])
      (SysStep.insert c3Boot ("/dev/sr0") ("other_disc") ("MyDisc")
        ("a") ("/tmp") ("/out") (by decide)))
      (SysStep.cancelApi c3S1 ("j1")))
      (SysStep.insert c3S2 ("/dev/sr0") ("other_disc") ("Disc2")
        ("c") ("/tmp") ("/out") (by decide))
  · intro drives path jid key d hres hlook hsome2
    cases hjj : d.job_id with
    | none =>
      rw [hjj] at hsome2
      exact absurd hsome2 (by decide)
    | some a =>
      have hav : d.is_available = false := by
        simp [Drive.is_available, hjj]
      simp only [assign_job, hres, hlook, hav]
      rw [if_neg (by simp)]
  · intro s2 path dtRaw lbl jid td ob hflag drv hgd
    unfold insert_drive at hflag
    dsimp only at hflag
    by_cases h4 : path = "" ∨ strLower dtRaw = "" ∨ lbl = ""
    · rw [if_pos h4] at hflag
      simp at hflag
    · rw [if_neg h4] at hflag
      rw [hgd] at hflag
      dsimp only at hflag
      cases hbz : drv.is_available with
      | true => rfl
      | false =>
        rw [hbz] at hflag
        simp at hflag
end TKAR
